import Mathlib

/-!
# PES-Final-Project: circular byte FIFO and UART0 transport

A shallow embedding of `source/cbfifo.c`, `source/uart.c` and the line
accumulator of `source/cmd_processor.c` of the firmware, followed by theorems
about the embedding.

Conventions of the embedding

* A byte (`char`, `uint8_t`) is a `Fin 256`.
* A pointer to a byte region is an `Option Mem`: `none` is `NULL`, and
  `some m` gives the byte at every offset from the pointer.
* A pointer to a `cbfifo_t` is an `Option cbfifo_t`; functions that write
  through the pointer return the structure as it is after the call.
* `uint32_t` fields are natural numbers and every C operation on them that
  can wrap has its wrap-around written out (`% 2 ^ 32`, or 0 going to
  `2 ^ 32 - 1` for the decrement). The loop counters `i`, `bytesEnqueued` and
  `bytesCopied` never exceed `nbyte` and cannot wrap.
* PRIMASK is its single implemented bit.
-/

namespace PES

/-! ## cbfifo.h -/

/-- One `char` / `uint8_t`. -/
abbrev Byte := Fin 256

/-- A byte region addressed by the offset from a (non-null) pointer. -/
abbrev Mem := Nat → Byte

/-- The macro `CAPACITY` of `cbfifo.h`. -/
def CAPACITY : Nat := 256

/-- The `typedef struct cbfifo_s` of `cbfifo.h`. -/
structure cbfifo_t where
  /-- the array `char cbfifo[CAPACITY]` -/
  cbfifo : Nat → Byte
  /-- the field `uint32_t length` -/
  length : Nat
  /-- the field `uint32_t wptr` -/
  wptr : Nat
  /-- the field `uint32_t rptr` -/
  rptr : Nat
  /-- the field `bool full` -/
  full : Bool

/-- Store `v` in cell `i` of an array. -/
def store (a : Nat → Byte) (i : Nat) (v : Byte) : Nat → Byte :=
  fun j => if j = i then v else a j

/-! ## CMSIS intrinsics used by cbfifo.c -/

/-- Modelled from the spec: the CMSIS intrinsic `__get_PRIMASK` (its header is
not part of the sources) reads the interrupt mask; the spec calls the three
intrinsics a "disable/restore preemption" primitive. -/
def __get_PRIMASK (primask : Bool) : Nat :=
  if primask then 1 else 0

/-- Modelled from the spec: the CMSIS intrinsic `__disable_irq` masks
interrupts, i.e. sets the PRIMASK bit. -/
def __disable_irq (_primask : Bool) : Bool :=
  true

/-- Modelled from the spec: the CMSIS intrinsic `__set_PRIMASK` writes the
interrupt mask; only bit 0 of the written word is kept. -/
def __set_PRIMASK (priMask : Nat) : Bool :=
  decide (priMask % 2 = 1)

/-! ## cbfifo.c -/

/-- `cbfifo_init`, lines 26-36 of `cbfifo.c`. -/
def cbfifo_init (cb : Option cbfifo_t) : Option cbfifo_t :=
  match cb with
  | none => none
  | some _ =>
    some { cbfifo := fun _ => 0, wptr := 0, rptr := 0, length := 0, full := false }

/-- What an enqueue call leaves behind: the structure behind `cb`, the returned
`size_t`, and PRIMASK. -/
structure enqueue_result where
  cb : Option cbfifo_t
  ret : Nat
  primask : Bool

/-- The `for` loop of `cbfifo_enqueue`, lines 59-77: the first argument is
`nbyte - i`, the number of iterations still allowed by `i < nbyte`. -/
def enqueue_loop (buf : Mem) :
    Nat → Nat → cbfifo_t → Bool → Nat → enqueue_result
  | 0, _, cb, primask, bytesEnqueued =>
    { cb := some cb, ret := bytesEnqueued, primask := primask }
  | n + 1, i, cb, primask, bytesEnqueued =>
    if cb.full then { cb := some cb, ret := bytesEnqueued, primask := primask }
    else
      let cb1 : cbfifo_t := { cb with cbfifo := store cb.cbfifo cb.wptr (buf i) }
      let bytesEnqueued1 := bytesEnqueued + 1
      let masking_state := __get_PRIMASK primask
      let _primask1 := __disable_irq primask
      let cb2 : cbfifo_t := { cb1 with length := (cb1.length + 1) % 2 ^ 32 }
      let primask2 := __set_PRIMASK masking_state
      let cb3 : cbfifo_t :=
        { cb2 with wptr := ((cb2.wptr + 1) % 2 ^ 32) &&& (CAPACITY - 1) }
      let cb4 : cbfifo_t := { cb3 with full := decide (cb3.wptr = cb3.rptr) }
      enqueue_loop buf n (i + 1) cb4 primask2 bytesEnqueued1

/-- `cbfifo_enqueue`, lines 49-78 of `cbfifo.c`. -/
def cbfifo_enqueue (cb : Option cbfifo_t) (buf : Option Mem) (nbyte : Nat)
    (primask : Bool) : enqueue_result :=
  match cb with
  | none => { cb := none, ret := 0, primask := primask }
  | some c =>
    match buf with
    | none => { cb := some c, ret := 0, primask := primask }
    | some b => enqueue_loop b nbyte 0 c primask 0

/-- What a dequeue call leaves behind: the structure behind `cb`, the
destination region, the returned `size_t`, and PRIMASK. -/
structure dequeue_result where
  cb : Option cbfifo_t
  buf : Option Mem
  ret : Nat
  primask : Bool

/-- The `for` loop of `cbfifo_dequeue`, lines 101-119: the first argument is
`nbyte - i`. The decrement of the `uint32_t` counter wraps from 0 to
`2 ^ 32 - 1`. -/
def dequeue_loop :
    Nat → Nat → cbfifo_t → Mem → Bool → Nat → dequeue_result
  | 0, _, cb, buf, primask, bytesCopied =>
    { cb := some cb, buf := some buf, ret := bytesCopied, primask := primask }
  | n + 1, i, cb, buf, primask, bytesCopied =>
    if decide (cb.wptr = cb.rptr) && !cb.full then
      { cb := some cb, buf := some buf, ret := bytesCopied, primask := primask }
    else
      let buf1 := store buf i (cb.cbfifo cb.rptr)
      let bytesCopied1 := bytesCopied + 1
      let masking_state := __get_PRIMASK primask
      let _primask1 := __disable_irq primask
      let cb1 : cbfifo_t :=
        { cb with length := if cb.length = 0 then 2 ^ 32 - 1 else cb.length - 1 }
      let primask2 := __set_PRIMASK masking_state
      let cb2 : cbfifo_t :=
        { cb1 with rptr := ((cb1.rptr + 1) % 2 ^ 32) &&& (CAPACITY - 1) }
      let cb3 : cbfifo_t := { cb2 with full := false }
      dequeue_loop n (i + 1) cb3 buf1 primask2 bytesCopied1

/-- `cbfifo_dequeue`, lines 91-120 of `cbfifo.c`. -/
def cbfifo_dequeue (cb : Option cbfifo_t) (buf : Option Mem) (nbyte : Nat)
    (primask : Bool) : dequeue_result :=
  match cb with
  | none => { cb := none, buf := buf, ret := 0, primask := primask }
  | some c =>
    match buf with
    | none => { cb := some c, buf := none, ret := 0, primask := primask }
    | some b => dequeue_loop nbyte 0 c b primask 0

/-- `cbfifo_empty`, lines 130-132 of `cbfifo.c`. -/
def cbfifo_empty (cb : cbfifo_t) : Bool :=
  decide (cb.length = 0)

/-- `cbfifo_full`, lines 141-143 of `cbfifo.c`. -/
def cbfifo_full (cb : cbfifo_t) : Bool :=
  cb.full

/-- `cbfifo_length`, lines 153-155 of `cbfifo.c`. -/
def cbfifo_length (cb : cbfifo_t) : Nat :=
  cb.length

/-! ## uart.c -/

/-- Modelled from the spec: the bit masks of the vendor header `MKL25Z4.h`,
which is not part of the sources. `UART0_C2_TIE_MASK` is the "outbound-ready
interrupt" enable bit of control register 2. -/
def UART0_C2_TIE_MASK : Nat := 0x80

/-- Modelled from the spec: "transmit register empty" in status register 1. -/
def UART0_S1_TDRE_MASK : Nat := 0x80

/-- Modelled from the spec: "receive data ready" in status register 1. -/
def UART0_S1_RDRF_MASK : Nat := 0x20

/-- Modelled from the spec: the overrun flag of status register 1. -/
def UART0_S1_OR_MASK : Nat := 0x08

/-- Modelled from the spec: the noise flag of status register 1. -/
def UART0_S1_NF_MASK : Nat := 0x04

/-- Modelled from the spec: the framing-error flag of status register 1. -/
def UART0_S1_FE_MASK : Nat := 0x02

/-- Modelled from the spec: the parity-error flag of status register 1. -/
def UART0_S1_PF_MASK : Nat := 0x01

/-- The four line-error flags tested and acknowledged by `UART0_IRQHandler`. -/
def UART0_S1_ERR_MASK : Nat :=
  UART0_S1_OR_MASK ||| UART0_S1_NF_MASK ||| UART0_S1_FE_MASK ||| UART0_S1_PF_MASK

/-- The registers of the UART0 peripheral that `__sys_write`, `__sys_readc`
and `UART0_IRQHandler` touch. `D` is the receive side of the data register and
`sent` lists the bytes written to its transmit side, oldest first. -/
structure UART0_Type where
  S1 : Nat
  C2 : Nat
  D : Byte
  sent : List Byte

/-- Modelled from the spec: reading the data register yields the received byte
and clears the hardware "receive data ready" flag. -/
def UART0_read_D (u : UART0_Type) : Byte × UART0_Type :=
  (u.D, { u with S1 := u.S1 &&& (0xFF - UART0_S1_RDRF_MASK) })

/-- Modelled from the spec: an acknowledgment write to the status register
clears the error flags written as 1 and changes no other flag. -/
def UART0_write_S1 (u : UART0_Type) (v : Nat) : UART0_Type :=
  { u with S1 := u.S1 &&& (0xFF - (v &&& UART0_S1_ERR_MASK)) }

/-- Modelled from the spec: a write to the data register hands one byte to the
transmitter. -/
def UART0_write_D (u : UART0_Type) (b : Byte) : UART0_Type :=
  { u with sent := u.sent ++ [b] }

/-- The globals `uart_tx_cbfifo` and `uart_rx_cbfifo` of `uart.c`, the UART0
peripheral and PRIMASK. -/
structure State where
  uart_tx_cbfifo : cbfifo_t
  uart_rx_cbfifo : cbfifo_t
  UART0 : UART0_Type
  primask : Bool

/-- Conversion of an `int` to `size_t` (32-bit unsigned). -/
def to_size_t (x : Int) : Nat :=
  (x % 2 ^ 32).toNat

/-- The condition of the busy-wait of `__sys_write`, line 45 of `uart.c`:
`(CAPACITY - cbfifo_length(&uart_tx_cbfifo)) < size`, compared as `size_t`. -/
def tx_wait (s : State) (size : Int) : Bool :=
  decide ((CAPACITY + 2 ^ 32 - cbfifo_length s.uart_tx_cbfifo) % 2 ^ 32 < to_size_t size)

/-- `__sys_write`, lines 39-58 of `uart.c`. The busy-wait of line 45 has an
empty body: when its condition holds on entry nothing in the function can end
it, and the result is `none`. -/
def __sys_write (s : State) (_handle : Int) (buf : Option Mem) (size : Int) :
    Option (State × Int) :=
  match buf with
  | none => some (s, -1)
  | some b =>
    if tx_wait s size then none
    else
      let r := cbfifo_enqueue (some s.uart_tx_cbfifo) (some b) (to_size_t size) s.primask
      let s1 : State :=
        { s with uart_tx_cbfifo := r.cb.getD s.uart_tx_cbfifo, primask := r.primask }
      if r.ret ≠ to_size_t size then some (s1, -1)
      else if s1.UART0.C2 &&& UART0_C2_TIE_MASK = 0 then
        some ({ s1 with UART0 :=
                  { s1.UART0 with C2 := (s1.UART0.C2 ||| UART0_C2_TIE_MASK) % 256 } }, 0)
      else some (s1, 0)

/-- `__sys_readc`, lines 65-73 of `uart.c`. The parameter `character` is the
indeterminate initial content of the local of that name. -/
def __sys_readc (s : State) (character : Byte) : State × Int :=
  if cbfifo_empty s.uart_rx_cbfifo then (s, -1)
  else
    let r := cbfifo_dequeue (some s.uart_rx_cbfifo) (some (fun _ => character)) 1 s.primask
    let character1 : Byte := (r.buf.getD (fun _ => character)) 0
    ({ s with uart_rx_cbfifo := r.cb.getD s.uart_rx_cbfifo, primask := r.primask },
      (character1.val : Int))

/-- Lines 129-136 of `UART0_IRQHandler`: the line-error branch. -/
def irq_error (s : State) (character : Byte) : State × Byte :=
  if s.UART0.S1 &&& UART0_S1_ERR_MASK ≠ 0 then
    let u1 := UART0_write_S1 s.UART0 ((s.UART0.S1 ||| UART0_S1_ERR_MASK) % 256)
    let (c, u2) := UART0_read_D u1
    ({ s with UART0 := u2 }, c)
  else (s, character)

/-- Lines 137-147 of `UART0_IRQHandler`: the receive branch. -/
def irq_receive (s : State) (character : Byte) : State × Byte :=
  if s.UART0.S1 &&& UART0_S1_RDRF_MASK ≠ 0 then
    let (c, u1) := UART0_read_D s.UART0
    let s1 : State := { s with UART0 := u1 }
    if !cbfifo_full s1.uart_rx_cbfifo then
      let r := cbfifo_enqueue (some s1.uart_rx_cbfifo) (some (fun _ => c)) 1 s1.primask
      ({ s1 with uart_rx_cbfifo := r.cb.getD s1.uart_rx_cbfifo, primask := r.primask }, c)
    else (s1, c)
  else (s, character)

/-- Lines 148-159 of `UART0_IRQHandler`: the transmit branch. -/
def irq_transmit (s : State) (character : Byte) : State × Byte :=
  if s.UART0.C2 &&& UART0_C2_TIE_MASK ≠ 0 ∧ s.UART0.S1 &&& UART0_S1_TDRE_MASK ≠ 0 then
    if !cbfifo_empty s.uart_tx_cbfifo then
      let r := cbfifo_dequeue (some s.uart_tx_cbfifo) (some (fun _ => character)) 1 s.primask
      let c : Byte := (r.buf.getD (fun _ => character)) 0
      ({ s with uart_tx_cbfifo := r.cb.getD s.uart_tx_cbfifo, primask := r.primask,
                UART0 := UART0_write_D s.UART0 c }, c)
    else
      ({ s with UART0 :=
           { s.UART0 with C2 := (s.UART0.C2 &&& (2 ^ 32 - 1 - UART0_C2_TIE_MASK)) % 256 } },
        character)
  else (s, character)

/-- `UART0_IRQHandler`, lines 126-160 of `uart.c`: its three `if` statements
in sequence. The parameter `character` is the indeterminate initial content of
the local of that name. -/
def UART0_IRQHandler (s : State) (character : Byte) : State :=
  let (s1, c1) := irq_error s character
  let (s2, c2) := irq_receive s1 c1
  (irq_transmit s2 c2).1

/-! ## cmd_processor.c -/

/-- The statics `line` and `line_index` of `cmd_processor.c` and the global
`print_acceleration`. A cell of `line` is addressed by its C index; the array
`char line[256]` has the cells 0 to 255. -/
structure line_state where
  line : Int → Byte
  line_index : Int
  print_acceleration : Bool

/-- Store `v` at the C index `i`. -/
def store_at (a : Int → Byte) (i : Int) (v : Byte) : Int → Byte :=
  fun j => if j = i then v else a j

/-- What one call of `accumulate_line` leaves behind: the variables, and the
index of `line` the call wrote to, if it wrote. -/
structure accumulate_result where
  state : line_state
  written : Option Int

/-- `accumulate_line`, lines 50-81 of `cmd_processor.c`, on the character that
`getchar` delivered. `char_is_signed` is the signedness of plain `char`, which
decides whether the byte 255 compares equal to `EOF`; `process_command` stands
for the call of line 66, which may rewrite `line` and `print_acceleration`.
The `int` arithmetic on `line_index` has no wrap-around written out, since
signed overflow is undefined; the `printf` calls do not touch the variables. -/
def accumulate_line (char_is_signed : Bool)
    (process_command : (Int → Byte) → Bool → (Int → Byte) × Bool)
    (s : line_state) (character : Byte) : accumulate_result :=
  if char_is_signed && decide (character = 255) then { state := s, written := none }
  else if s.print_acceleration then
    { state := { s with print_acceleration := false }, written := none }
  else if character = 13 then
    let line1 := store_at s.line s.line_index 0
    let line_index1 : Int := 0
    let (line2, print_acceleration2) := process_command line1 s.print_acceleration
    { state :=
        { line := line2, line_index := line_index1, print_acceleration := print_acceleration2 }
      written := some s.line_index }
  else if character = 8 then
    { state := { s with line_index := s.line_index - 1 }, written := none }
  else
    { state :=
        { s with line := store_at s.line s.line_index character
                 line_index := s.line_index + 1 }
      written := some s.line_index }

/-- The variables as the C start-up code leaves them: `line` zeroed,
`line_index` 0, `print_acceleration` false. -/
def line_init : line_state :=
  { line := fun _ => 0, line_index := 0, print_acceleration := false }

/-- The variables together with the indices of `line` written so far, oldest
first. -/
structure accumulate_trace where
  state : line_state
  writes : List Int

/-- Deliver one character to `accumulate_line` and record the index it wrote
to. -/
def accumulate_trace.step (char_is_signed : Bool)
    (process_command : (Int → Byte) → Bool → (Int → Byte) × Bool)
    (t : accumulate_trace) (character : Byte) : accumulate_trace :=
  let r := accumulate_line char_is_signed process_command t.state character
  { state := r.state
    writes := match r.written with
      | some i => t.writes ++ [i]
      | none => t.writes }

/-- Deliver a sequence of characters, first to last, starting from the initial
variables. -/
def accumulate_run (char_is_signed : Bool)
    (process_command : (Int → Byte) → Bool → (Int → Byte) × Bool)
    (chars : List Byte) : accumulate_trace :=
  chars.foldl (accumulate_trace.step char_is_signed process_command)
    { state := line_init, writes := [] }

/-! ## Vocabulary of the statements -/

/-- The bytes held by the buffer, oldest first: `length` cells read from
`rptr` onward, wrapping at `CAPACITY`. -/
def contents (cb : cbfifo_t) : List Byte :=
  (List.range cb.length).map (fun j => cb.cbfifo ((cb.rptr + j) % CAPACITY))

/-- The first `n` bytes of a region, in order. -/
def bytes (m : Mem) (n : Nat) : List Byte :=
  (List.range n).map m

/-- A byte sequence laid out in memory; cells past its end read as 0. -/
def region (s : List Byte) : Mem :=
  fun i => s.getD i 0

/-- The state `cbfifo_init` produces. -/
def cb_init : cbfifo_t :=
  { cbfifo := fun _ => 0, wptr := 0, rptr := 0, length := 0, full := false }

/-- The buffer after 128 bytes were enqueued into a fresh buffer and dequeued
again: it is empty and both indices stand at 128, so the next 256 bytes wrap. -/
def cb_half : cbfifo_t :=
  ((cbfifo_dequeue (cbfifo_enqueue (some cb_init) (some (fun _ => 0)) 128 false).cb
      (some (fun _ => 0)) 128 false).cb).getD cb_init

/-- The buffer after the single byte 65 was enqueued into a fresh buffer. -/
def cb_one : cbfifo_t :=
  ((cbfifo_enqueue (some cb_init) (some (fun _ => 65)) 1 false).cb).getD cb_init

/-- The transport as `uart0_init` leaves it: both buffers fresh, receiver and
transmitter on, receive interrupt enabled, transmit interrupt disabled, the
transmit register empty, nothing received, nothing sent, interrupts unmasked. -/
def st_idle : State :=
  { uart_tx_cbfifo := cb_init
    uart_rx_cbfifo := cb_init
    UART0 := { S1 := 0x80, C2 := 0x2C, D := 0, sent := [] }
    primask := false }

/-- The idle transport with the single byte 65 waiting in the inbound buffer. -/
def st_rx_one : State :=
  { st_idle with uart_rx_cbfifo := cb_one }

/-- The idle transport at the moment the byte 65 has been received: receive
data ready is set and no line-error flag is. -/
def st_rx_ready : State :=
  { st_idle with UART0 := { S1 := 0xA0, C2 := 0x2C, D := 65, sent := [] } }

/-- The transport at the moment the byte 66 has been received with a framing
error, while the byte 65 waits in the inbound buffer. -/
def st_rx_error : State :=
  { st_rx_one with UART0 := { S1 := 0xA2, C2 := 0x2C, D := 66, sent := [] } }

/-- The transport after `__sys_write` of the two bytes 111, 107 ("ok") on the
idle transport. -/
def st_ok : State :=
  ((__sys_write st_idle 1 (some (region [111, 107])) 2).getD (st_idle, -1)).1

/-- The transport after two firings of the handler on `st_ok`. -/
def st_drained : State :=
  UART0_IRQHandler (UART0_IRQHandler st_ok 0) 0

/-- The buffer states that `cbfifo_init` followed by any calls of
`cbfifo_enqueue` and `cbfifo_dequeue` can produce. -/
inductive Reachable : cbfifo_t → Prop
  | init (c0 c : cbfifo_t) : cbfifo_init (some c0) = some c → Reachable c
  | enqueue (c c1 : cbfifo_t) (buf : Option Mem) (nbyte : Nat) (pm : Bool) :
      Reachable c → (cbfifo_enqueue (some c) buf nbyte pm).cb = some c1 → Reachable c1
  | dequeue (c c1 : cbfifo_t) (buf : Option Mem) (nbyte : Nat) (pm : Bool) :
      Reachable c → (cbfifo_dequeue (some c) buf nbyte pm).cb = some c1 → Reachable c1

/-- The data-model invariant of section 3 of the spec, in the form the proofs
use: the write index is the read index advanced by the count. -/
structure Inv (cb : cbfifo_t) : Prop where
  wptr_lt : cb.wptr < 256
  rptr_lt : cb.rptr < 256
  length_le : cb.length ≤ 256
  full_iff : cb.full = decide (cb.length = 256)
  wptr_eq : cb.wptr = (cb.rptr + cb.length) % 256

/-- The structure after one pass through the body of the enqueue loop
(lines 63-74) that stores the byte `b`. -/
def enqueue_pass (cb : cbfifo_t) (b : Byte) : cbfifo_t :=
  { cbfifo := store cb.cbfifo cb.wptr b
    length := (cb.length + 1) % 2 ^ 32
    wptr := ((cb.wptr + 1) % 2 ^ 32) &&& (CAPACITY - 1)
    rptr := cb.rptr
    full := decide (((cb.wptr + 1) % 2 ^ 32) &&& (CAPACITY - 1) = cb.rptr) }

/-- The structure after one pass through the body of the dequeue loop
(lines 105-116). -/
def dequeue_pass (cb : cbfifo_t) : cbfifo_t :=
  { cbfifo := cb.cbfifo
    length := if cb.length = 0 then 2 ^ 32 - 1 else cb.length - 1
    wptr := cb.wptr
    rptr := ((cb.rptr + 1) % 2 ^ 32) &&& (CAPACITY - 1)
    full := false }

/-- One call of the buffer API with non-null arguments. -/
inductive Call
  | enqueue (buf : Mem) (nbyte : Nat)
  | dequeue (buf : Mem) (nbyte : Nat)

/-- A buffer together with PRIMASK and the running sums of the values returned
by the enqueue calls and by the dequeue calls. -/
structure Tally where
  cb : cbfifo_t
  primask : Bool
  enqueued : Nat
  dequeued : Nat

/-- Perform one call and add its return value to the matching sum. -/
def Tally.call (t : Tally) : Call → Tally
  | Call.enqueue buf nbyte =>
    let r := cbfifo_enqueue (some t.cb) (some buf) nbyte t.primask
    { t with cb := r.cb.getD t.cb, primask := r.primask, enqueued := t.enqueued + r.ret }
  | Call.dequeue buf nbyte =>
    let r := cbfifo_dequeue (some t.cb) (some buf) nbyte t.primask
    { t with cb := r.cb.getD t.cb, primask := r.primask, dequeued := t.dequeued + r.ret }

/-- A freshly initialised buffer with nothing enqueued or dequeued yet. -/
def Tally.fresh (primask : Bool) : Tally :=
  { cb := cb_init, primask := primask, enqueued := 0, dequeued := 0 }

/-- Perform a sequence of calls, first to last. -/
def Tally.run (t : Tally) (cs : List Call) : Tally :=
  cs.foldl Tally.call t

/-- A one-byte call: enqueue the byte `b`, or dequeue into a one-byte
destination that held `d`. -/
inductive Op1
  | enq (b : Byte)
  | deq (d : Byte)

/-- A buffer with PRIMASK and the two observable byte streams: the bytes the
enqueues accepted and the bytes the successful dequeues returned. -/
structure Trace1 where
  cb : cbfifo_t
  primask : Bool
  accepted : List Byte
  delivered : List Byte

/-- Perform a one-byte call on the code and record what it accepted or
returned. -/
def Trace1.step (t : Trace1) : Op1 → Trace1
  | Op1.enq b =>
    let r := cbfifo_enqueue (some t.cb) (some (fun _ => b)) 1 t.primask
    { t with cb := r.cb.getD t.cb, primask := r.primask,
             accepted := if r.ret = 1 then t.accepted ++ [b] else t.accepted }
  | Op1.deq d =>
    let r := cbfifo_dequeue (some t.cb) (some (fun _ => d)) 1 t.primask
    { t with cb := r.cb.getD t.cb, primask := r.primask,
             delivered :=
               if r.ret = 1 then t.delivered ++ [(r.buf.getD (fun _ => d)) 0]
               else t.delivered }

/-- The trace of a freshly initialised buffer. -/
def Trace1.fresh (primask : Bool) : Trace1 :=
  { cb := cb_init, primask := primask, accepted := [], delivered := [] }

/-- Perform a sequence of one-byte calls, first to last. -/
def Trace1.run (t : Trace1) (ops : List Op1) : Trace1 :=
  ops.foldl Trace1.step t

/-- The bounded FIFO queue of the spec: a list of at most `CAPACITY` bytes,
oldest first, with the streams of accepted and delivered bytes. -/
structure Queue1 where
  queue : List Byte
  accepted : List Byte
  delivered : List Byte

/-- The bounded FIFO queue of the spec, one-byte calls: an enqueue is accepted
unless the queue holds `CAPACITY` bytes, a dequeue removes the oldest byte
unless the queue is empty. -/
def Queue1.step (q : Queue1) : Op1 → Queue1
  | Op1.enq b =>
    if q.queue.length < CAPACITY then
      { q with queue := q.queue ++ [b], accepted := q.accepted ++ [b] }
    else q
  | Op1.deq _ =>
    match q.queue with
    | [] => q
    | x :: rest => { q with queue := rest, delivered := q.delivered ++ [x] }

/-- The empty queue of the spec. -/
def Queue1.fresh : Queue1 :=
  { queue := [], accepted := [], delivered := [] }

/-- Perform a sequence of one-byte calls on the queue of the spec. -/
def Queue1.run (q : Queue1) (ops : List Op1) : Queue1 :=
  ops.foldl Queue1.step q

/-- What links a trace of the code to the queue of the spec: the buffer holds
the queue, both have accepted and delivered the same bytes, and the delivered
bytes followed by the held ones are the accepted ones. -/
structure Sim (t : Trace1) (q : Queue1) : Prop where
  inv : Inv t.cb
  queue : contents t.cb = q.queue
  accepted : t.accepted = q.accepted
  delivered : t.delivered = q.delivered
  stream : t.delivered ++ contents t.cb = t.accepted

/-! ## Lemmas about one pass of each loop -/

/-- Restoring the mask that was read gives back the mask. -/
theorem set_get_PRIMASK (pm : Bool) : __set_PRIMASK (__get_PRIMASK pm) = pm := by
  cases pm <;> decide

/-- Masking with `CAPACITY - 1` is reduction modulo 256. -/
theorem land_capacity (x : Nat) : x &&& (CAPACITY - 1) = x % 256 :=
  Nat.and_pow_two_sub_one_eq_mod x 8

/-- The enqueue loop with no iteration left returns. -/
theorem enqueue_loop_zero (buf : Mem) (i : Nat) (cb : cbfifo_t) (pm : Bool) (acc : Nat) :
    enqueue_loop buf 0 i cb pm acc = { cb := some cb, ret := acc, primask := pm } := rfl

/-- One iteration of the enqueue loop. -/
theorem enqueue_loop_succ (buf : Mem) (n i : Nat) (cb : cbfifo_t) (pm : Bool) (acc : Nat) :
    enqueue_loop buf (n + 1) i cb pm acc =
      if cb.full then { cb := some cb, ret := acc, primask := pm }
      else enqueue_loop buf n (i + 1) (enqueue_pass cb (buf i)) pm (acc + 1) := by
  simp only [enqueue_loop, enqueue_pass, set_get_PRIMASK]

/-- The dequeue loop with no iteration left returns. -/
theorem dequeue_loop_zero (i : Nat) (cb : cbfifo_t) (buf : Mem) (pm : Bool) (acc : Nat) :
    dequeue_loop 0 i cb buf pm acc =
      { cb := some cb, buf := some buf, ret := acc, primask := pm } := rfl

/-- One iteration of the dequeue loop. -/
theorem dequeue_loop_succ (n i : Nat) (cb : cbfifo_t) (buf : Mem) (pm : Bool) (acc : Nat) :
    dequeue_loop (n + 1) i cb buf pm acc =
      if decide (cb.wptr = cb.rptr) && !cb.full then
        { cb := some cb, buf := some buf, ret := acc, primask := pm }
      else dequeue_loop n (i + 1) (dequeue_pass cb) (store buf i (cb.cbfifo cb.rptr)) pm
        (acc + 1) := by
  simp only [dequeue_loop, dequeue_pass, set_get_PRIMASK]

/-- Under the invariant the full flag is clear exactly below capacity. -/
theorem Inv.not_full_iff {cb : cbfifo_t} (h : Inv cb) : cb.full = false ↔ cb.length < 256 := by
  have := h.length_le
  rw [h.full_iff]; simp; omega

/-- The initial state satisfies the invariant. -/
theorem Inv.init : Inv cb_init :=
  ⟨by decide, by decide, by decide, by decide, by decide⟩

/-- A pass of the enqueue loop on a buffer that is not full keeps the invariant. -/
theorem Inv.enqueue_pass {cb : cbfifo_t} (h : Inv cb) (hf : cb.full = false) (b : Byte) :
    Inv (enqueue_pass cb b) := by
  have hl := h.not_full_iff.1 hf
  have hw := h.wptr_lt
  have hr := h.rptr_lt
  have he := h.wptr_eq
  constructor <;> simp only [PES.enqueue_pass, land_capacity] <;> try omega
  simp only [decide_eq_decide]
  omega

/-- A pass of the enqueue loop appends its byte to the contents. -/
theorem contents_enqueue_pass {cb : cbfifo_t} (h : Inv cb) (hf : cb.full = false) (b : Byte) :
    contents (enqueue_pass cb b) = contents cb ++ [b] := by
  have hl := h.not_full_iff.1 hf
  have hr := h.rptr_lt
  have he := h.wptr_eq
  have h1 : (cb.length + 1) % 2 ^ 32 = cb.length + 1 := by omega
  simp only [contents, PES.enqueue_pass, h1, List.range_succ, List.map_append, List.map_cons,
    List.map_nil, CAPACITY]
  congr 1
  · apply List.map_congr_left
    intro j hj
    have hj := List.mem_range.1 hj
    simp only [store]
    rw [if_neg]; omega
  · simp only [store]
    rw [if_pos]; omega

/-- The emptiness test of the dequeue loop holds exactly when the count is 0. -/
theorem Inv.empty_test_iff {cb : cbfifo_t} (h : Inv cb) :
    (decide (cb.wptr = cb.rptr) && !cb.full) = decide (cb.length = 0) := by
  have hl := h.length_le
  have hr := h.rptr_lt
  have he := h.wptr_eq
  rw [h.full_iff]
  by_cases h0 : cb.length = 0
  · simp [h0]; omega
  · by_cases h1 : cb.length = 256
    · simp [h1]
    · simp [h0, h1]; omega

/-- A pass of the dequeue loop on a non-empty buffer keeps the invariant. -/
theorem Inv.dequeue_pass {cb : cbfifo_t} (h : Inv cb) (hn : cb.length ≠ 0) :
    Inv (dequeue_pass cb) := by
  have hl := h.length_le
  have hw := h.wptr_lt
  have hr := h.rptr_lt
  have he := h.wptr_eq
  constructor <;> simp only [PES.dequeue_pass, land_capacity, if_neg hn] <;> try omega
  simp only [Bool.false_eq, decide_eq_false_iff_not]
  omega

/-- A pass of the dequeue loop on a non-empty buffer lowers the count by one. -/
theorem length_dequeue_pass {cb : cbfifo_t} (hn : cb.length ≠ 0) :
    (dequeue_pass cb).length = cb.length - 1 := by
  simp only [PES.dequeue_pass, if_neg hn]

/-- A pass of the dequeue loop removes the byte at the read index, which is
the oldest one. -/
theorem contents_dequeue_pass {cb : cbfifo_t} (h : Inv cb) (hn : cb.length ≠ 0) :
    contents cb = cb.cbfifo cb.rptr :: contents (dequeue_pass cb) := by
  have hl := h.length_le
  have hr := h.rptr_lt
  obtain ⟨m, hm⟩ : ∃ m, cb.length = m + 1 := ⟨cb.length - 1, by omega⟩
  have h1 : cb.length - 1 = m := by omega
  simp only [contents, PES.dequeue_pass, if_neg hn, h1, land_capacity]
  simp only [CAPACITY]
  rw [hm, List.range_succ_eq_map, List.map_cons, List.map_map]
  refine congrArg₂ List.cons (congrArg cb.cbfifo (by omega)) ?_
  apply List.map_congr_left
  intro j _
  show cb.cbfifo ((cb.rptr + (j + 1)) % 256) = _
  refine congrArg cb.cbfifo ?_
  omega

/-- What the enqueue loop does to a buffer that satisfies the invariant. -/
theorem enqueue_loop_spec (buf : Mem) (n : Nat) :
    ∀ (i : Nat) (cb : cbfifo_t) (pm : Bool) (acc : Nat), Inv cb →
      ∃ cb1 : cbfifo_t,
        enqueue_loop buf n i cb pm acc =
          { cb := some cb1, ret := acc + min n (256 - cb.length), primask := pm } ∧
        Inv cb1 ∧ cb1.rptr = cb.rptr ∧
        cb1.length = cb.length + min n (256 - cb.length) ∧
        contents cb1 =
          contents cb ++ (List.range (min n (256 - cb.length))).map (fun j => buf (i + j)) := by
  induction n with
  | zero =>
    intro i cb pm acc h
    exact ⟨cb, by simp [enqueue_loop_zero], h, rfl, by simp, by simp⟩
  | succ n ih =>
    intro i cb pm acc h
    rw [enqueue_loop_succ]
    cases hf : cb.full with
    | true =>
      have hl : cb.length = 256 := by
        have := h.full_iff; rw [hf] at this; simpa using this
      exact ⟨cb, by simp [hl], h, rfl, by simp [hl], by simp [hl]⟩
    | false =>
      have hl := h.not_full_iff.1 hf
      obtain ⟨cb1, e, hi, hr, hlen, hc⟩ :=
        ih (i + 1) (enqueue_pass cb (buf i)) pm (acc + 1) (h.enqueue_pass hf (buf i))
      have hl1 : (enqueue_pass cb (buf i)).length = cb.length + 1 := by
        simp only [PES.enqueue_pass]; omega
      have hm : min (n + 1) (256 - cb.length) = min n (256 - (cb.length + 1)) + 1 := by omega
      rw [hl1] at e hlen hc
      refine ⟨cb1, ?_, hi, ?_, ?_, ?_⟩
      · have ha : acc + 1 + min n (256 - (cb.length + 1)) =
            acc + (min n (256 - (cb.length + 1)) + 1) := by omega
        simp only [Bool.false_eq_true, if_false, e, hm, ha]
      · rw [hr]; simp only [PES.enqueue_pass]
      · rw [hlen, hm]; omega
      · rw [hc, contents_enqueue_pass h hf, hm, List.range_succ_eq_map, List.map_cons,
          List.map_map, List.append_assoc]
        simp only [List.singleton_append, Nat.add_zero, Function.comp]
        refine congrArg (fun l => contents cb ++ buf i :: l) ?_
        apply List.map_congr_left
        intro j _
        exact congrArg buf (by omega)


/-- What the dequeue loop does to a buffer that satisfies the invariant. -/
theorem dequeue_loop_spec (n : Nat) :
    ∀ (i : Nat) (cb : cbfifo_t) (buf : Mem) (pm : Bool) (acc : Nat), Inv cb →
      ∃ (cb1 : cbfifo_t) (buf1 : Mem),
        dequeue_loop n i cb buf pm acc =
          { cb := some cb1, buf := some buf1, ret := acc + min n cb.length, primask := pm } ∧
        Inv cb1 ∧ cb1.wptr = cb.wptr ∧
        cb1.length = cb.length - min n cb.length ∧
        (min n cb.length = 0 → cb1 = cb) ∧
        contents cb1 = (contents cb).drop (min n cb.length) ∧
        (List.range (min n cb.length)).map (fun j => buf1 (i + j)) =
          (contents cb).take (min n cb.length) ∧
        ∀ j, (j < i ∨ i + min n cb.length ≤ j) → buf1 j = buf j := by
  induction n with
  | zero =>
    intro i cb buf pm acc h
    refine ⟨cb, buf, ?_, h, rfl, ?_, fun _ => rfl, ?_, ?_, fun _ _ => rfl⟩
    · rw [dequeue_loop_zero, Nat.zero_min, Nat.add_zero]
    · rw [Nat.zero_min, Nat.sub_zero]
    · rw [Nat.zero_min, List.drop_zero]
    · rw [Nat.zero_min, List.take_zero, List.range_zero, List.map_nil]
  | succ n ih =>
    intro i cb buf pm acc h
    rw [dequeue_loop_succ, h.empty_test_iff]
    by_cases h0 : cb.length = 0
    · have hm0 : min (n + 1) cb.length = 0 := by omega
      refine ⟨cb, buf, ?_, h, rfl, ?_, fun _ => rfl, ?_, ?_, fun _ _ => rfl⟩
      · rw [hm0, decide_eq_true h0, if_pos rfl]; rfl
      · rw [hm0, Nat.sub_zero]
      · rw [hm0, List.drop_zero]
      · rw [hm0, List.take_zero, List.range_zero, List.map_nil]
    · obtain ⟨cb1, buf1, e, hi, hw, hlen, _, hc, hb, hrest⟩ :=
        ih (i + 1) (dequeue_pass cb) (store buf i (cb.cbfifo cb.rptr)) pm (acc + 1)
          (h.dequeue_pass h0)
      have hl1 := length_dequeue_pass h0
      have hm : min (n + 1) cb.length = min n (cb.length - 1) + 1 := by omega
      rw [hl1] at e hlen hc hb hrest
      have hw1 : (dequeue_pass cb).wptr = cb.wptr := by unfold dequeue_pass; rfl
      refine ⟨cb1, buf1, ?_, hi, ?_, ?_, ?_, ?_, ?_, ?_⟩
      · have ha : acc + 1 + min n (cb.length - 1) = acc + (min n (cb.length - 1) + 1) := by
          omega
        rw [decide_eq_false h0, if_neg Bool.false_ne_true, e, hm, ha]
      · rw [hw, hw1]
      · rw [hlen, hm]; omega
      · intro hz; omega
      · rw [hc, hm, contents_dequeue_pass h h0, List.drop_succ_cons]
      · rw [hm, contents_dequeue_pass h h0, List.take_succ_cons, ← hb,
          List.range_succ_eq_map, List.map_cons, List.map_map]
        refine congrArg₂ List.cons ?_ ?_
        · rw [Nat.add_zero, hrest i (Or.inl (Nat.lt_succ_self i))]
          simp only [store, if_true]
        · apply List.map_congr_left
          intro j _
          exact congrArg buf1 (by omega)
      · intro j hj
        rw [hrest j (by omega)]
        simp only [store]
        rw [if_neg]; omega

/-! ## The two calls under the invariant -/

/-- What `cbfifo_enqueue` does with non-null arguments under the invariant. -/
theorem cbfifo_enqueue_spec {cb : cbfifo_t} (h : Inv cb) (buf : Mem) (nbyte : Nat) (pm : Bool) :
    ∃ cb1 : cbfifo_t,
      cbfifo_enqueue (some cb) (some buf) nbyte pm =
        { cb := some cb1, ret := min nbyte (256 - cb.length), primask := pm } ∧
      Inv cb1 ∧ cb1.rptr = cb.rptr ∧
      cb1.length = cb.length + min nbyte (256 - cb.length) ∧
      contents cb1 = contents cb ++ bytes buf (min nbyte (256 - cb.length)) := by
  obtain ⟨cb1, e, hi, hr, hl, hc⟩ := enqueue_loop_spec buf nbyte 0 cb pm 0 h
  refine ⟨cb1, ?_, hi, hr, hl, ?_⟩
  · rw [Nat.zero_add] at e
    exact e
  · rw [hc]
    simp only [bytes, Nat.zero_add]

/-- What `cbfifo_dequeue` does with non-null arguments under the invariant. -/
theorem cbfifo_dequeue_spec {cb : cbfifo_t} (h : Inv cb) (dst : Mem) (nbyte : Nat) (pm : Bool) :
    ∃ (cb1 : cbfifo_t) (dst1 : Mem),
      cbfifo_dequeue (some cb) (some dst) nbyte pm =
        { cb := some cb1, buf := some dst1, ret := min nbyte cb.length, primask := pm } ∧
      Inv cb1 ∧ cb1.wptr = cb.wptr ∧
      cb1.length = cb.length - min nbyte cb.length ∧
      (min nbyte cb.length = 0 → cb1 = cb) ∧
      contents cb1 = (contents cb).drop (min nbyte cb.length) ∧
      bytes dst1 (min nbyte cb.length) = (contents cb).take (min nbyte cb.length) ∧
      ∀ j, min nbyte cb.length ≤ j → dst1 j = dst j := by
  obtain ⟨cb1, dst1, e, hi, hw, hl, hz, hc, hb, hrest⟩ := dequeue_loop_spec nbyte 0 cb dst pm 0 h
  refine ⟨cb1, dst1, ?_, hi, hw, hl, hz, hc, ?_, ?_⟩
  · rw [Nat.zero_add] at e
    exact e
  · rw [← hb]
    simp only [bytes, Nat.zero_add]
  · intro j hj
    exact hrest j (Or.inr (by omega))

/-- Every enqueue call keeps the invariant. -/
theorem Inv.enqueue {cb cb1 : cbfifo_t} (h : Inv cb) (buf : Option Mem) (nbyte : Nat)
    (pm : Bool) (e : (cbfifo_enqueue (some cb) buf nbyte pm).cb = some cb1) : Inv cb1 := by
  cases buf with
  | none =>
    simp only [cbfifo_enqueue, Option.some.injEq] at e
    exact e ▸ h
  | some b =>
    obtain ⟨cb2, e2, hi, _⟩ := cbfifo_enqueue_spec h b nbyte pm
    rw [e2] at e
    simp only [Option.some.injEq] at e
    exact e ▸ hi

/-- Every dequeue call keeps the invariant. -/
theorem Inv.dequeue {cb cb1 : cbfifo_t} (h : Inv cb) (buf : Option Mem) (nbyte : Nat)
    (pm : Bool) (e : (cbfifo_dequeue (some cb) buf nbyte pm).cb = some cb1) : Inv cb1 := by
  cases buf with
  | none =>
    simp only [cbfifo_dequeue, Option.some.injEq] at e
    exact e ▸ h
  | some b =>
    obtain ⟨cb2, dst, e2, hi, _⟩ := cbfifo_dequeue_spec h b nbyte pm
    rw [e2] at e
    simp only [Option.some.injEq] at e
    exact e ▸ hi

/-- Every reachable buffer state satisfies the invariant. -/
theorem Reachable.inv {cb : cbfifo_t} (h : Reachable cb) : Inv cb := by
  induction h with
  | init c0 c e =>
    simp only [cbfifo_init, Option.some.injEq] at e
    exact e ▸ Inv.init
  | enqueue c c1 buf nbyte pm _ e ih => exact ih.enqueue buf nbyte pm e
  | dequeue c c1 buf nbyte pm _ e ih => exact ih.dequeue buf nbyte pm e

/-- The initial state is reachable. -/
theorem Reachable.cb_init : Reachable cb_init :=
  Reachable.init PES.cb_init PES.cb_init rfl

/-- The enqueue loop reads only the bytes it stores. -/
theorem enqueue_loop_congr (buf buf2 : Mem) (n : Nat) :
    ∀ (i : Nat) (cb : cbfifo_t) (pm : Bool) (acc : Nat), Inv cb →
      (∀ j, j < min n (256 - cb.length) → buf2 (i + j) = buf (i + j)) →
      enqueue_loop buf2 n i cb pm acc = enqueue_loop buf n i cb pm acc := by
  induction n with
  | zero => intro i cb pm acc _ _; rfl
  | succ n ih =>
    intro i cb pm acc h hb
    rw [enqueue_loop_succ, enqueue_loop_succ]
    cases hf : cb.full with
    | true => rfl
    | false =>
      have hl := h.not_full_iff.1 hf
      have h0 : buf2 i = buf i := by
        have := hb 0 (by omega)
        rwa [Nat.add_zero] at this
      simp only [Bool.false_eq_true, if_false, h0]
      apply ih (i + 1) _ pm (acc + 1) (h.enqueue_pass hf (buf i))
      intro j hj
      have hl1 : (enqueue_pass cb (buf i)).length = cb.length + 1 := by
        simp only [PES.enqueue_pass]; omega
      rw [hl1] at hj
      have := hb (j + 1) (by omega)
      rwa [show i + (j + 1) = i + 1 + j by omega] at this

/-- An enqueue call on a reachable buffer leaves a reachable buffer behind. -/
theorem Reachable.enqueue_cb {c : cbfifo_t} (h : Reachable c) (buf : Option Mem) (nbyte : Nat)
    (pm : Bool) :
    ∃ c1, (cbfifo_enqueue (some c) buf nbyte pm).cb = some c1 ∧ Reachable c1 := by
  cases buf with
  | none => exact ⟨c, rfl, h⟩
  | some b =>
    obtain ⟨c1, e, _⟩ := cbfifo_enqueue_spec h.inv b nbyte pm
    have e1 : (cbfifo_enqueue (some c) (some b) nbyte pm).cb = some c1 := by rw [e]
    exact ⟨c1, e1, Reachable.enqueue c c1 (some b) nbyte pm h e1⟩

/-- A dequeue call on a reachable buffer leaves a reachable buffer behind. -/
theorem Reachable.dequeue_cb {c : cbfifo_t} (h : Reachable c) (buf : Option Mem) (nbyte : Nat)
    (pm : Bool) :
    ∃ c1, (cbfifo_dequeue (some c) buf nbyte pm).cb = some c1 ∧ Reachable c1 := by
  cases buf with
  | none => exact ⟨c, rfl, h⟩
  | some b =>
    obtain ⟨c1, d1, e, _⟩ := cbfifo_dequeue_spec h.inv b nbyte pm
    have e1 : (cbfifo_dequeue (some c) (some b) nbyte pm).cb = some c1 := by rw [e]
    exact ⟨c1, e1, Reachable.dequeue c c1 (some b) nbyte pm h e1⟩

/-- The half-way state is reachable. -/
theorem Reachable.cb_half : Reachable cb_half := by
  obtain ⟨c1, e1, h1⟩ := Reachable.cb_init.enqueue_cb (some (fun _ => 0)) 128 false
  obtain ⟨c2, e2, h2⟩ := h1.dequeue_cb (some (fun _ => 0)) 128 false
  have : PES.cb_half = c2 := by
    unfold PES.cb_half
    rw [e1, e2]
    rfl
  exact this ▸ h2

/-- The single-byte state is reachable. -/
theorem Reachable.cb_one : Reachable cb_one := by
  obtain ⟨c1, e1, h1⟩ := Reachable.cb_init.enqueue_cb (some (fun _ => 65)) 1 false
  have : PES.cb_one = c1 := by
    unfold PES.cb_one
    rw [e1]
    rfl
  exact this ▸ h1

/-! ## The circular byte buffer: claims C1 to C6 -/

/-- C1: on a reachable buffer holding L bytes, `cbfifo_enqueue` with non-null
arguments returns k = min(nbyte, 256 - L), appends the first k input bytes
behind the queued ones, keeps the queued bytes and the read index, does not
depend on the input bytes from the k-th on, and enqueuing 257 bytes into an
empty buffer returns 256 and leaves it full. -/
theorem cbfifo_enqueue_contract (cb : cbfifo_t) (hr : Reachable cb) (buf : Mem) (nbyte : Nat)
    (pm : Bool) :
    ∃ cb1 : cbfifo_t,
      cbfifo_enqueue (some cb) (some buf) nbyte pm =
        { cb := some cb1, ret := min nbyte (CAPACITY - cbfifo_length cb), primask := pm } ∧
      contents cb1 = contents cb ++ bytes buf (min nbyte (CAPACITY - cbfifo_length cb)) ∧
      cb1.rptr = cb.rptr ∧
      (∀ j, j < cbfifo_length cb →
        cb1.cbfifo ((cb.rptr + j) % CAPACITY) = cb.cbfifo ((cb.rptr + j) % CAPACITY)) ∧
      cbfifo_length cb1 = cbfifo_length cb + min nbyte (CAPACITY - cbfifo_length cb) ∧
      (∀ buf2 : Mem, (∀ j, j < min nbyte (CAPACITY - cbfifo_length cb) → buf2 j = buf j) →
        cbfifo_enqueue (some cb) (some buf2) nbyte pm =
          cbfifo_enqueue (some cb) (some buf) nbyte pm) ∧
      (cbfifo_length cb = 0 → nbyte = CAPACITY + 1 →
        (cbfifo_enqueue (some cb) (some buf) nbyte pm).ret = CAPACITY ∧
          cbfifo_full cb1 = true) := by
  have hi := hr.inv
  obtain ⟨cb1, e, hi1, hrp, hl, hc⟩ := cbfifo_enqueue_spec hi buf nbyte pm
  simp only [CAPACITY, cbfifo_length]
  refine ⟨cb1, e, hc, hrp, ?_, hl, ?_, ?_⟩
  · intro j hj
    have h1 := congrArg (fun l => l[j]?) hc
    simp only [contents, CAPACITY, hrp, hl] at h1
    rw [List.getElem?_append_left (by simpa using hj)] at h1
    simp only [List.getElem?_map, List.getElem?_range hj,
      List.getElem?_range (show j < cb.length + min nbyte (256 - cb.length) by omega),
      Option.map_some', Option.some.injEq] at h1
    exact h1
  · intro buf2 hb
    simp only [cbfifo_enqueue]
    apply enqueue_loop_congr buf buf2 nbyte 0 cb pm 0 hi
    intro j hj
    rw [Nat.zero_add]
    exact hb j hj
  · intro h0 hn
    rw [e]
    have hf := hi1.full_iff
    rw [hl, h0, hn] at hf
    refine ⟨?_, ?_⟩
    · show min nbyte (256 - cb.length) = 256
      omega
    · simp only [cbfifo_full, hf]
      decide

/-- C1 at a concrete input: 257 bytes `'x'` offered to the fresh buffer. -/
theorem cbfifo_enqueue_contract_witness :
    Reachable cb_init ∧
    ∃ cb1 : cbfifo_t,
      cbfifo_enqueue (some cb_init) (some (fun _ => 120)) 257 false =
        { cb := some cb1, ret := min 257 (CAPACITY - cbfifo_length cb_init),
          primask := false } ∧
      contents cb1 =
        contents cb_init ++ bytes (fun _ => 120) (min 257 (CAPACITY - cbfifo_length cb_init)) ∧
      cb1.rptr = cb_init.rptr ∧
      (∀ j, j < cbfifo_length cb_init →
        cb1.cbfifo ((cb_init.rptr + j) % CAPACITY) =
          cb_init.cbfifo ((cb_init.rptr + j) % CAPACITY)) ∧
      cbfifo_length cb1 =
        cbfifo_length cb_init + min 257 (CAPACITY - cbfifo_length cb_init) ∧
      (∀ buf2 : Mem, (∀ j, j < min 257 (CAPACITY - cbfifo_length cb_init) → buf2 j = 120) →
        cbfifo_enqueue (some cb_init) (some buf2) 257 false =
          cbfifo_enqueue (some cb_init) (some (fun _ => 120)) 257 false) ∧
      (cbfifo_length cb_init = 0 → 257 = CAPACITY + 1 →
        (cbfifo_enqueue (some cb_init) (some (fun _ => 120)) 257 false).ret = CAPACITY ∧
          cbfifo_full cb1 = true) :=
  ⟨Reachable.cb_init,
    cbfifo_enqueue_contract cb_init Reachable.cb_init (fun _ => 120) 257 false⟩

/-- C2: on a reachable buffer holding L bytes, `cbfifo_dequeue` with non-null
arguments returns k = min(nbyte, L), writes the k oldest bytes to the
destination in queue order and nothing else, drops them from the buffer,
lowers the count by k and keeps the write index; on an empty buffer it
returns 0 and changes nothing. -/
theorem cbfifo_dequeue_contract (cb : cbfifo_t) (hr : Reachable cb) (dst : Mem) (nbyte : Nat)
    (pm : Bool) :
    ∃ (cb1 : cbfifo_t) (dst1 : Mem),
      cbfifo_dequeue (some cb) (some dst) nbyte pm =
        { cb := some cb1, buf := some dst1, ret := min nbyte (cbfifo_length cb),
          primask := pm } ∧
      bytes dst1 (min nbyte (cbfifo_length cb)) =
        (contents cb).take (min nbyte (cbfifo_length cb)) ∧
      (∀ j, min nbyte (cbfifo_length cb) ≤ j → dst1 j = dst j) ∧
      contents cb1 = (contents cb).drop (min nbyte (cbfifo_length cb)) ∧
      cbfifo_length cb1 = cbfifo_length cb - min nbyte (cbfifo_length cb) ∧
      cb1.wptr = cb.wptr ∧
      (cbfifo_empty cb = true →
        (cbfifo_dequeue (some cb) (some dst) nbyte pm).ret = 0 ∧ cb1 = cb) := by
  obtain ⟨cb1, dst1, e, _, hw, hl, hz, hc, hb, hrest⟩ := cbfifo_dequeue_spec hr.inv dst nbyte pm
  simp only [cbfifo_length]
  refine ⟨cb1, dst1, e, hb, hrest, hc, hl, hw, ?_⟩
  intro he
  have h0 : cb.length = 0 := by simpa [cbfifo_empty] using he
  have hm : min nbyte cb.length = 0 := by omega
  rw [e]
  exact ⟨hm, hz hm⟩

/-- C2 at a concrete input: one byte requested from the buffer that holds the
single byte 65. -/
theorem cbfifo_dequeue_contract_witness :
    Reachable cb_one ∧
    ∃ (cb1 : cbfifo_t) (dst1 : Mem),
      cbfifo_dequeue (some cb_one) (some (fun _ => 7)) 1 true =
        { cb := some cb1, buf := some dst1, ret := min 1 (cbfifo_length cb_one),
          primask := true } ∧
      bytes dst1 (min 1 (cbfifo_length cb_one)) =
        (contents cb_one).take (min 1 (cbfifo_length cb_one)) ∧
      (∀ j, min 1 (cbfifo_length cb_one) ≤ j → dst1 j = (fun _ => 7) j) ∧
      contents cb1 = (contents cb_one).drop (min 1 (cbfifo_length cb_one)) ∧
      cbfifo_length cb1 = cbfifo_length cb_one - min 1 (cbfifo_length cb_one) ∧
      cb1.wptr = cb_one.wptr ∧
      (cbfifo_empty cb_one = true →
        (cbfifo_dequeue (some cb_one) (some (fun _ => 7)) 1 true).ret = 0 ∧
          cb1 = cb_one) :=
  ⟨Reachable.cb_one,
    cbfifo_dequeue_contract cb_one Reachable.cb_one (fun _ => 7) 1 true⟩

/-- The first `s.length` bytes of the region that lays out `s` are `s`. -/
theorem bytes_region (s : List Byte) : bytes (region s) s.length = s := by
  apply List.ext_getElem
  · simp [bytes]
  · intro i h1 h2
    simp [bytes, region, List.getD_eq_getElem?_getD, List.getElem?_eq_getElem h2]

/-- C3: round trip with wrap-around. On every empty reachable buffer, wherever
its indices stand, enqueuing a sequence of N <= 256 bytes returns N, and
dequeuing N bytes afterwards returns N, yields the sequence in order and
leaves the buffer empty. -/
theorem cbfifo_round_trip (cb : cbfifo_t) (hr : Reachable cb) (he : cbfifo_empty cb = true)
    (s : List Byte) (hs : s.length ≤ CAPACITY) (dst : Mem) (pm pm2 : Bool) :
    ∃ (cb1 cb2 : cbfifo_t) (dst2 : Mem),
      cbfifo_enqueue (some cb) (some (region s)) s.length pm =
        { cb := some cb1, ret := s.length, primask := pm } ∧
      cbfifo_dequeue (some cb1) (some dst) s.length pm2 =
        { cb := some cb2, buf := some dst2, ret := s.length, primask := pm2 } ∧
      bytes dst2 s.length = s ∧
      cbfifo_empty cb2 = true ∧ contents cb2 = [] := by
  have h0 : cb.length = 0 := by simpa [cbfifo_empty] using he
  have hs1 : s.length ≤ 256 := hs
  obtain ⟨cb1, e1, hi1, _, hl1, hc1⟩ := cbfifo_enqueue_spec hr.inv (region s) s.length pm
  have hk : min s.length (256 - cb.length) = s.length := by omega
  have hc0 : contents cb = [] := by simp [contents, h0]
  rw [hk] at e1 hl1 hc1
  rw [h0, Nat.zero_add] at hl1
  rw [hc0, List.nil_append, bytes_region] at hc1
  obtain ⟨cb2, dst2, e2, _, _, hl2, _, hc2, hb2, _⟩ := cbfifo_dequeue_spec hi1 dst s.length pm2
  have hk2 : min s.length cb1.length = s.length := by omega
  rw [hk2] at e2 hl2 hc2 hb2
  rw [hc1, List.take_length] at hb2
  rw [hc1, List.drop_length] at hc2
  refine ⟨cb1, cb2, dst2, e1, e2, hb2, ?_, hc2⟩
  simp only [cbfifo_empty, decide_eq_true_eq]
  omega

set_option maxRecDepth 100000 in
/-- C3 at a concrete input: the half-way state (indices at 128) and 256 bytes,
so the sequence wraps around the end of the array. -/
theorem cbfifo_round_trip_witness :
    Reachable cb_half ∧ cbfifo_empty cb_half = true ∧
    (List.replicate 256 (120 : Byte)).length ≤ CAPACITY ∧
    ∃ (cb1 cb2 : cbfifo_t) (dst2 : Mem),
      cbfifo_enqueue (some cb_half) (some (region (List.replicate 256 (120 : Byte))))
          (List.replicate 256 (120 : Byte)).length false =
        { cb := some cb1, ret := (List.replicate 256 (120 : Byte)).length, primask := false } ∧
      cbfifo_dequeue (some cb1) (some (fun _ => 0)) (List.replicate 256 (120 : Byte)).length
          false =
        { cb := some cb2, buf := some dst2, ret := (List.replicate 256 (120 : Byte)).length,
          primask := false } ∧
      bytes dst2 (List.replicate 256 (120 : Byte)).length = List.replicate 256 (120 : Byte) ∧
      cbfifo_empty cb2 = true ∧ contents cb2 = [] :=
  ⟨Reachable.cb_half, by decide, by simp [CAPACITY],
    cbfifo_round_trip cb_half Reachable.cb_half (by decide) (List.replicate 256 120)
      (by simp [CAPACITY]) (fun _ => 0) false false⟩

/-- C4: every reachable buffer state satisfies the data-model invariant: both
indices are below 256, the count is between 0 and 256, the full flag is set
exactly when the count is 256, when the flag is clear the count is
(wptr - rptr) mod 256, and `cbfifo_empty` agrees with the emptiness test of
the dequeue loop. -/
theorem cbfifo_invariant (cb : cbfifo_t) (hr : Reachable cb) :
    cb.wptr < CAPACITY ∧ cb.rptr < CAPACITY ∧
    0 ≤ cbfifo_length cb ∧ cbfifo_length cb ≤ CAPACITY ∧
    (cbfifo_full cb = true ↔ cbfifo_length cb = CAPACITY) ∧
    (cbfifo_full cb = false →
      (cbfifo_length cb : Int) = ((cb.wptr : Int) - (cb.rptr : Int)) % (CAPACITY : Int)) ∧
    cbfifo_empty cb = (decide (cb.wptr = cb.rptr) && !cb.full) := by
  have h := hr.inv
  have hw := h.wptr_lt
  have hp := h.rptr_lt
  have hl := h.length_le
  have he := h.wptr_eq
  simp only [CAPACITY, cbfifo_length, cbfifo_full, cbfifo_empty]
  refine ⟨hw, hp, Nat.zero_le _, hl, ?_, ?_, h.empty_test_iff.symm⟩
  · rw [h.full_iff]; simp
  · intro hf
    have := h.not_full_iff.1 hf
    push_cast
    omega

set_option maxRecDepth 100000 in
/-- C4 at a concrete input: the half-way state. -/
theorem cbfifo_invariant_witness :
    Reachable cb_half ∧
    cb_half.wptr < CAPACITY ∧ cb_half.rptr < CAPACITY ∧
    0 ≤ cbfifo_length cb_half ∧ cbfifo_length cb_half ≤ CAPACITY ∧
    (cbfifo_full cb_half = true ↔ cbfifo_length cb_half = CAPACITY) ∧
    (cbfifo_full cb_half = false →
      (cbfifo_length cb_half : Int) =
        ((cb_half.wptr : Int) - (cb_half.rptr : Int)) % (CAPACITY : Int)) ∧
    cbfifo_empty cb_half = (decide (cb_half.wptr = cb_half.rptr) && !cb_half.full) :=
  ⟨Reachable.cb_half, cbfifo_invariant cb_half Reachable.cb_half⟩

/-- One call keeps the invariant and the balance of the two sums. -/
theorem Tally.call_balance (t : Tally) (c : Call) (hi : Inv t.cb)
    (hb : t.cb.length + t.dequeued = t.enqueued) :
    Inv (t.call c).cb ∧ (t.call c).cb.length + (t.call c).dequeued = (t.call c).enqueued := by
  cases c with
  | enqueue buf nbyte =>
    obtain ⟨cb1, e, hi1, _, hl, _⟩ := cbfifo_enqueue_spec hi buf nbyte t.primask
    simp only [Tally.call, e, Option.getD_some]
    exact ⟨hi1, by omega⟩
  | dequeue buf nbyte =>
    obtain ⟨cb1, dst1, e, hi1, _, hl, _⟩ := cbfifo_dequeue_spec hi buf nbyte t.primask
    simp only [Tally.call, e, Option.getD_some]
    exact ⟨hi1, by omega⟩

/-- A sequence of calls keeps the invariant and the balance of the two sums. -/
theorem Tally.run_balance (cs : List Call) :
    ∀ t : Tally, Inv t.cb → t.cb.length + t.dequeued = t.enqueued →
      Inv (t.run cs).cb ∧ (t.run cs).cb.length + (t.run cs).dequeued = (t.run cs).enqueued := by
  induction cs with
  | nil => intro t hi hb; exact ⟨hi, hb⟩
  | cons c cs ih =>
    intro t hi hb
    obtain ⟨hi1, hb1⟩ := t.call_balance c hi hb
    exact ih (t.call c) hi1 hb1

/-- C5: after any sequence of enqueue and dequeue calls with non-null
arguments on a freshly initialised buffer, `cbfifo_length` equals the sum of
the values the enqueue calls returned minus the sum of the values the dequeue
calls returned, and lies between 0 and 256. -/
theorem cbfifo_length_accounting (cs : List Call) (pm : Bool) :
    (cbfifo_length ((Tally.fresh pm).run cs).cb : Int) =
        (((Tally.fresh pm).run cs).enqueued : Int) - (((Tally.fresh pm).run cs).dequeued : Int) ∧
      0 ≤ cbfifo_length ((Tally.fresh pm).run cs).cb ∧
      cbfifo_length ((Tally.fresh pm).run cs).cb ≤ CAPACITY := by
  obtain ⟨hi, hb⟩ := Tally.run_balance cs (Tally.fresh pm) Inv.init rfl
  simp only [cbfifo_length, CAPACITY]
  exact ⟨by omega, Nat.zero_le _, hi.length_le⟩

/-- The number of bytes held is the count. -/
theorem length_contents (cb : cbfifo_t) : (contents cb).length = cb.length := by
  simp [contents]

/-- A one-byte call on the code is matched by the same call on the queue of
the spec. -/
theorem Sim.step {t : Trace1} {q : Queue1} (h : Sim t q) (op : Op1) :
    Sim (t.step op) (q.step op) := by
  have hi := h.inv
  have hlen : q.queue.length = t.cb.length := by rw [← h.queue, length_contents]
  cases op with
  | enq b =>
    obtain ⟨cb1, e, hi1, _, hl, hc⟩ := cbfifo_enqueue_spec hi (fun _ => b) 1 t.primask
    by_cases hfull : t.cb.length < 256
    · have hk : min 1 (256 - t.cb.length) = 1 := by omega
      rw [hk] at e hc
      have hb : bytes (fun _ => b) 1 = [b] := rfl
      rw [hb] at hc
      have hq : q.queue.length < CAPACITY := by rw [hlen]; exact hfull
      simp only [Trace1.step, Queue1.step, e, Option.getD_some, if_true, if_pos hq]
      exact ⟨hi1, by rw [hc, h.queue], by rw [h.accepted], h.delivered,
        by rw [hc, ← List.append_assoc, h.stream]⟩
    · have hk : min 1 (256 - t.cb.length) = 0 := by omega
      rw [hk] at e hc
      have hb : bytes (fun _ => b) 0 = [] := rfl
      rw [hb, List.append_nil] at hc
      have hq : ¬ q.queue.length < CAPACITY := by rw [hlen]; exact hfull
      simp only [Trace1.step, Queue1.step, e, Option.getD_some, if_neg hq]
      simp only [Nat.zero_ne_one, if_false]
      exact ⟨hi1, by rw [hc, h.queue], h.accepted, h.delivered, by rw [hc, h.stream]⟩
  | deq d =>
    obtain ⟨cb1, dst1, e, hi1, _, hl, hz, hc, hb, _⟩ :=
      cbfifo_dequeue_spec hi (fun _ => d) 1 t.primask
    cases hq : q.queue with
    | nil =>
      have h0 : t.cb.length = 0 := by rw [← hlen, hq]; rfl
      have hk : min 1 t.cb.length = 0 := by omega
      rw [hk] at e
      have hcb := hz hk
      simp only [Trace1.step, Queue1.step, e, Option.getD_some, hq]
      simp only [Nat.zero_ne_one, if_false, hcb]
      exact ⟨hi, by rw [h.queue, hq], h.accepted, h.delivered, h.stream⟩
    | cons x rest =>
      have h0 : t.cb.length = rest.length + 1 := by rw [← hlen, hq]; rfl
      have hk : min 1 t.cb.length = 1 := by omega
      rw [hk] at e hc hb
      rw [h.queue, hq] at hc hb
      have hx : dst1 0 = x := by
        have : bytes dst1 1 = [dst1 0] := rfl
        rw [this] at hb
        simpa using hb
      simp only [Trace1.step, Queue1.step, e, Option.getD_some, hq, if_true, hx]
      refine ⟨hi1, by rw [hc]; rfl, h.accepted, by rw [h.delivered], ?_⟩
      rw [hc, ← h.stream, h.queue, hq]
      simp

/-- A sequence of one-byte calls on the code is matched by the same sequence
on the queue of the spec. -/
theorem Sim.run (ops : List Op1) :
    ∀ (t : Trace1) (q : Queue1), Sim t q → Sim (t.run ops) (q.run ops) := by
  induction ops with
  | nil => intro t q h; exact h
  | cons op ops ih => intro t q h; exact ih (t.step op) (q.step op) (h.step op)

/-- The fresh buffer matches the empty queue. -/
theorem Sim.fresh (pm : Bool) : Sim (Trace1.fresh pm) Queue1.fresh :=
  ⟨Inv.init, rfl, rfl, rfl, rfl⟩

/-- C6: under any interleaving of one-byte enqueue and one-byte dequeue calls
from `cbfifo_init`, the code behaves as the bounded FIFO queue of the spec:
it accepts and delivers the same bytes and holds the same queue; the bytes
delivered are a prefix of the bytes accepted and the bytes still held, read
from `rptr` onward, are the rest; the count is the number of bytes held and
stays within 0 and 256. -/
theorem cbfifo_simulates_queue (ops : List Op1) (pm : Bool) :
    ((Trace1.fresh pm).run ops).accepted = (Queue1.fresh.run ops).accepted ∧
    ((Trace1.fresh pm).run ops).delivered = (Queue1.fresh.run ops).delivered ∧
    contents ((Trace1.fresh pm).run ops).cb = (Queue1.fresh.run ops).queue ∧
    ((Trace1.fresh pm).run ops).delivered <+: ((Trace1.fresh pm).run ops).accepted ∧
    ((Trace1.fresh pm).run ops).delivered ++ contents ((Trace1.fresh pm).run ops).cb =
      ((Trace1.fresh pm).run ops).accepted ∧
    cbfifo_length ((Trace1.fresh pm).run ops).cb =
      (contents ((Trace1.fresh pm).run ops).cb).length ∧
    0 ≤ cbfifo_length ((Trace1.fresh pm).run ops).cb ∧
    cbfifo_length ((Trace1.fresh pm).run ops).cb ≤ CAPACITY := by
  have h := Sim.run ops _ _ (Sim.fresh pm)
  refine ⟨h.accepted, h.delivered, h.queue, ⟨_, h.stream⟩, h.stream, ?_, Nat.zero_le _, ?_⟩
  · rw [length_contents]; rfl
  · exact h.inv.length_le

/-! ## The serial transport: claims C7 to C10 -/

/-- Once the busy-wait is over, `__sys_write` with a non-null `buf` enqueues
`size` bytes and returns 0. -/
theorem sys_write_after_wait (s : State) (hr : Reachable s.uart_tx_cbfifo) (handle : Int)
    (buf : Mem) (size : Int) (hw : tx_wait s size = false) :
    ∃ s1 : State,
      __sys_write s handle (some buf) size = some (s1, 0) ∧
      contents s1.uart_tx_cbfifo = contents s.uart_tx_cbfifo ++ bytes buf (to_size_t size) ∧
      s1.uart_tx_cbfifo.length = s.uart_tx_cbfifo.length + to_size_t size := by
  have hi := hr.inv
  have hl := hi.length_le
  have hn : to_size_t size ≤ 256 - s.uart_tx_cbfifo.length := by
    simp only [tx_wait, decide_eq_false_iff_not, CAPACITY, cbfifo_length] at hw
    omega
  obtain ⟨cb1, e, _, _, hl1, hc⟩ :=
    cbfifo_enqueue_spec hi buf (to_size_t size) s.primask
  have hk : min (to_size_t size) (256 - s.uart_tx_cbfifo.length) = to_size_t size := by omega
  rw [hk] at e hl1 hc
  simp only [__sys_write, hw, Bool.false_eq_true, if_false, e, Option.getD_some, ne_eq,
    not_true_eq_false]
  by_cases ht : s.UART0.C2 &&& UART0_C2_TIE_MASK = 0
  · rw [if_pos ht]
    exact ⟨_, rfl, hc, hl1⟩
  · rw [if_neg ht]
    exact ⟨_, rfl, hc, hl1⟩

/-- A non-negative `int` that fits in 32 bits converts to itself. -/
theorem to_size_t_of_nonneg (x : Int) (h0 : 0 ≤ x) (h1 : x < 2 ^ 32) :
    to_size_t x = x.toNat := by
  unfold to_size_t
  rw [Int.emod_eq_of_lt h0 h1]

/-- C7: on a reachable outbound buffer holding L bytes, `__sys_write` with a
non-null `buf` and 0 <= size <= 256 - L returns 0, leaves the buffer holding
its previous contents followed by all `size` bytes of `buf`, with count
L + size; and for no `size` at all does the call return -1. -/
theorem sys_write_whole_payload (s : State) (hr : Reachable s.uart_tx_cbfifo) (handle : Int)
    (buf : Mem) (size : Int) (h0 : 0 ≤ size)
    (h1 : size ≤ (CAPACITY : Int) - (cbfifo_length s.uart_tx_cbfifo : Int)) :
    ∃ s1 : State,
      __sys_write s handle (some buf) size = some (s1, 0) ∧
      contents s1.uart_tx_cbfifo = contents s.uart_tx_cbfifo ++ bytes buf size.toNat ∧
      (cbfifo_length s1.uart_tx_cbfifo : Int) = (cbfifo_length s.uart_tx_cbfifo : Int) + size ∧
      ∀ (size2 : Int) (s2 : State), __sys_write s handle (some buf) size2 ≠ some (s2, -1) := by
  have hl := hr.inv.length_le
  simp only [CAPACITY, cbfifo_length] at h1
  have hs : to_size_t size = size.toNat := to_size_t_of_nonneg size h0 (by omega)
  have hw : tx_wait s size = false := by
    simp only [tx_wait, decide_eq_false_iff_not, CAPACITY, cbfifo_length, hs]
    omega
  obtain ⟨s1, e, hc, hl1⟩ := sys_write_after_wait s hr handle buf size hw
  rw [hs] at hc hl1
  refine ⟨s1, e, hc, ?_, ?_⟩
  · simp only [cbfifo_length, hl1]
    push_cast
    omega
  · intro size2 s2
    cases hw2 : tx_wait s size2 with
    | true => simp [__sys_write, hw2]
    | false =>
      obtain ⟨s3, e3, _⟩ := sys_write_after_wait s hr handle buf size2 hw2
      rw [e3]
      simp

/-- C7 at a concrete input: the two bytes 111, 107 ("ok") written to the idle
transport. -/
theorem sys_write_whole_payload_witness :
    Reachable st_idle.uart_tx_cbfifo ∧ (0 : Int) ≤ 2 ∧
    (2 : Int) ≤ (CAPACITY : Int) - (cbfifo_length st_idle.uart_tx_cbfifo : Int) ∧
    ∃ s1 : State,
      __sys_write st_idle 1 (some (region [111, 107])) 2 = some (s1, 0) ∧
      contents s1.uart_tx_cbfifo =
        contents st_idle.uart_tx_cbfifo ++ bytes (region [111, 107]) (2 : Int).toNat ∧
      (cbfifo_length s1.uart_tx_cbfifo : Int) =
        (cbfifo_length st_idle.uart_tx_cbfifo : Int) + 2 ∧
      ∀ (size2 : Int) (s2 : State),
        __sys_write st_idle 1 (some (region [111, 107])) size2 ≠ some (s2, -1) :=
  ⟨Reachable.cb_init, by decide, by decide,
    sys_write_whole_payload st_idle Reachable.cb_init 1 (region [111, 107]) 2 (by decide)
      (by decide)⟩

/-- C8: on a reachable outbound buffer and for every `size` for which the
busy-wait is over, `__sys_write` returns -1 exactly when `buf` is null, and
with a null `buf` it leaves the whole state, the outbound buffer and the
transmit-interrupt enable bit included, as it was. -/
theorem sys_write_fails_only_on_null (s : State) (hr : Reachable s.uart_tx_cbfifo)
    (handle : Int) (buf : Option Mem) (size : Int) (hw : tx_wait s size = false) :
    ((∃ s1 : State, __sys_write s handle buf size = some (s1, -1)) ↔ buf = none) ∧
    (buf = none →
      ∃ s1 : State, __sys_write s handle buf size = some (s1, -1) ∧ s1 = s ∧
        s1.uart_tx_cbfifo = s.uart_tx_cbfifo ∧
        s1.UART0.C2 &&& UART0_C2_TIE_MASK = s.UART0.C2 &&& UART0_C2_TIE_MASK) := by
  cases buf with
  | none =>
    exact ⟨⟨fun _ => rfl, fun _ => ⟨s, rfl⟩⟩, fun _ => ⟨s, rfl, rfl, rfl, rfl⟩⟩
  | some b =>
    obtain ⟨s3, e3, _⟩ := sys_write_after_wait s hr handle b size hw
    refine ⟨⟨?_, fun h => by simp at h⟩, fun h => by simp at h⟩
    rintro ⟨s1, e⟩
    rw [e3] at e
    simp at e

/-- C8 at a concrete input: a null `buf` on the idle transport. -/
theorem sys_write_fails_only_on_null_witness :
    Reachable st_idle.uart_tx_cbfifo ∧ tx_wait st_idle 5 = false ∧
    ((∃ s1 : State, __sys_write st_idle 1 none 5 = some (s1, -1)) ↔
      (none : Option Mem) = none) ∧
    ((none : Option Mem) = none →
      ∃ s1 : State, __sys_write st_idle 1 none 5 = some (s1, -1) ∧ s1 = st_idle ∧
        s1.uart_tx_cbfifo = st_idle.uart_tx_cbfifo ∧
        s1.UART0.C2 &&& UART0_C2_TIE_MASK = st_idle.UART0.C2 &&& UART0_C2_TIE_MASK) :=
  ⟨Reachable.cb_init, by decide,
    sys_write_fails_only_on_null st_idle Reachable.cb_init 1 none 5 (by decide)⟩

/-- C9: `__sys_readc` returns -1 exactly when the inbound buffer is empty and
then changes nothing; on a reachable non-empty inbound buffer it returns the
oldest queued byte, a value between 0 and 255, and removes exactly that
byte. -/
theorem sys_readc_contract (s : State) (hr : Reachable s.uart_rx_cbfifo) (character : Byte) :
    ((__sys_readc s character).2 = -1 ↔ cbfifo_empty s.uart_rx_cbfifo = true) ∧
    (cbfifo_empty s.uart_rx_cbfifo = true → __sys_readc s character = (s, -1)) ∧
    (cbfifo_empty s.uart_rx_cbfifo = false →
      ∃ (b : Byte) (rest : List Byte),
        contents s.uart_rx_cbfifo = b :: rest ∧
        (__sys_readc s character).2 = (b.val : Int) ∧
        0 ≤ (__sys_readc s character).2 ∧ (__sys_readc s character).2 ≤ 255 ∧
        contents (__sys_readc s character).1.uart_rx_cbfifo = rest ∧
        cbfifo_length (__sys_readc s character).1.uart_rx_cbfifo + 1 =
          cbfifo_length s.uart_rx_cbfifo) := by
  have hi := hr.inv
  have hne : cbfifo_empty s.uart_rx_cbfifo = false →
      ∃ (b : Byte) (rest : List Byte),
        contents s.uart_rx_cbfifo = b :: rest ∧
        (__sys_readc s character).2 = (b.val : Int) ∧
        contents (__sys_readc s character).1.uart_rx_cbfifo = rest ∧
        cbfifo_length (__sys_readc s character).1.uart_rx_cbfifo + 1 =
          cbfifo_length s.uart_rx_cbfifo := by
    intro he
    have h0 : s.uart_rx_cbfifo.length ≠ 0 := by simpa [cbfifo_empty] using he
    obtain ⟨cb1, dst1, e, _, _, hl, _, hc, hb, _⟩ :=
      cbfifo_dequeue_spec hi (fun _ => character) 1 s.primask
    have hk : min 1 s.uart_rx_cbfifo.length = 1 := by omega
    rw [hk] at e hl hc hb
    have hlen := length_contents s.uart_rx_cbfifo
    cases hq : contents s.uart_rx_cbfifo with
    | nil => rw [hq] at hlen; exact absurd hlen.symm h0
    | cons b rest =>
      rw [hq] at hc hb
      have hx : dst1 0 = b := by
        have : bytes dst1 1 = [dst1 0] := rfl
        rw [this] at hb
        simpa using hb
      refine ⟨b, rest, rfl, ?_, ?_, ?_⟩
      · simp only [__sys_readc, he, Bool.false_eq_true, if_false, e, Option.getD_some, hx]
      · simp only [__sys_readc, he, Bool.false_eq_true, if_false, e, Option.getD_some, hc]
        rfl
      · simp only [__sys_readc, he, Bool.false_eq_true, if_false, e, Option.getD_some,
          cbfifo_length, hl]
        omega
  refine ⟨⟨?_, ?_⟩, ?_, ?_⟩
  · intro hret
    cases he : cbfifo_empty s.uart_rx_cbfifo with
    | true => rfl
    | false =>
      obtain ⟨b, _, _, hv, _⟩ := hne he
      rw [hv] at hret
      have := b.isLt
      omega
  · intro he
    simp only [__sys_readc, he, if_true]
  · intro he
    simp only [__sys_readc, he, if_true]
  · intro he
    obtain ⟨b, rest, hq, hv, hc, hl⟩ := hne he
    have := b.isLt
    exact ⟨b, rest, hq, hv, by rw [hv]; omega, by rw [hv]; omega, hc, hl⟩

set_option maxRecDepth 100000 in
/-- C9 at a concrete input: the inbound buffer holds the single byte 65, which
is the value returned. -/
theorem sys_readc_contract_witness :
    Reachable st_rx_one.uart_rx_cbfifo ∧
    (((__sys_readc st_rx_one 0).2 = -1 ↔ cbfifo_empty st_rx_one.uart_rx_cbfifo = true) ∧
    (cbfifo_empty st_rx_one.uart_rx_cbfifo = true →
      __sys_readc st_rx_one 0 = (st_rx_one, -1)) ∧
    (cbfifo_empty st_rx_one.uart_rx_cbfifo = false →
      ∃ (b : Byte) (rest : List Byte),
        contents st_rx_one.uart_rx_cbfifo = b :: rest ∧
        (__sys_readc st_rx_one 0).2 = (b.val : Int) ∧
        0 ≤ (__sys_readc st_rx_one 0).2 ∧ (__sys_readc st_rx_one 0).2 ≤ 255 ∧
        contents (__sys_readc st_rx_one 0).1.uart_rx_cbfifo = rest ∧
        cbfifo_length (__sys_readc st_rx_one 0).1.uart_rx_cbfifo + 1 =
          cbfifo_length st_rx_one.uart_rx_cbfifo)) ∧
    (__sys_readc st_rx_one 0).2 = 65 :=
  ⟨Reachable.cb_one, sys_readc_contract st_rx_one Reachable.cb_one 0, by decide⟩

/-- The line-error branch does nothing when no error flag is set. -/
theorem irq_error_clean (s : State) (character : Byte)
    (herr : s.UART0.S1 &&& UART0_S1_ERR_MASK = 0) : irq_error s character = (s, character) := by
  simp only [irq_error, herr, ne_eq, not_true_eq_false, if_false]

/-- The transmit branch does not touch the inbound buffer. -/
theorem irq_transmit_rx (s : State) (character : Byte) :
    (irq_transmit s character).1.uart_rx_cbfifo = s.uart_rx_cbfifo := by
  unfold irq_transmit
  split
  · split <;> rfl
  · rfl

/-- C10: when `UART0_IRQHandler` runs with receive-data-ready set and no
line-error flag set on a reachable inbound buffer, a buffer that is not full
gets the received byte appended as its newest element, its count grows by
one and its read index stays, and a full buffer is left exactly as it was. -/
theorem irq_inbound_overflow_policy (s : State) (hr : Reachable s.uart_rx_cbfifo)
    (character : Byte) (hrd : s.UART0.S1 &&& UART0_S1_RDRF_MASK ≠ 0)
    (herr : s.UART0.S1 &&& UART0_S1_ERR_MASK = 0) :
    (cbfifo_full s.uart_rx_cbfifo = false →
      contents (UART0_IRQHandler s character).uart_rx_cbfifo =
        contents s.uart_rx_cbfifo ++ [s.UART0.D] ∧
      cbfifo_length (UART0_IRQHandler s character).uart_rx_cbfifo =
        cbfifo_length s.uart_rx_cbfifo + 1 ∧
      (UART0_IRQHandler s character).uart_rx_cbfifo.rptr = s.uart_rx_cbfifo.rptr) ∧
    (cbfifo_full s.uart_rx_cbfifo = true →
      (UART0_IRQHandler s character).uart_rx_cbfifo = s.uart_rx_cbfifo) := by
  have hi := hr.inv
  have hH : (UART0_IRQHandler s character).uart_rx_cbfifo =
      (irq_receive s character).1.uart_rx_cbfifo := by
    simp only [UART0_IRQHandler, irq_error_clean s character herr, irq_transmit_rx]
  rw [hH]
  constructor
  · intro hf
    have hf1 : s.uart_rx_cbfifo.full = false := hf
    have hl := hi.not_full_iff.1 hf1
    obtain ⟨cb1, e, _, hrp, hl1, hc⟩ :=
      cbfifo_enqueue_spec hi (fun _ => s.UART0.D) 1 s.primask
    have hk : min 1 (256 - s.uart_rx_cbfifo.length) = 1 := by omega
    rw [hk] at e hl1 hc
    have hb : bytes (fun _ => s.UART0.D) 1 = [s.UART0.D] := rfl
    rw [hb] at hc
    simp only [irq_receive, hrd, ne_eq, not_false_eq_true, if_true, UART0_read_D, hf,
      Bool.not_false, e, Option.getD_some, cbfifo_length]
    exact ⟨hc, hl1, hrp⟩
  · intro hf
    simp only [irq_receive, hrd, ne_eq, not_false_eq_true, if_true, UART0_read_D, hf,
      Bool.not_true, Bool.false_eq_true, if_false]

/-- C10 at a concrete input: the byte 65 arrives at the idle transport, whose
inbound buffer is empty. -/
theorem irq_inbound_overflow_policy_witness :
    Reachable st_rx_ready.uart_rx_cbfifo ∧
    st_rx_ready.UART0.S1 &&& UART0_S1_RDRF_MASK ≠ 0 ∧
    st_rx_ready.UART0.S1 &&& UART0_S1_ERR_MASK = 0 ∧
    (cbfifo_full st_rx_ready.uart_rx_cbfifo = false →
      contents (UART0_IRQHandler st_rx_ready 0).uart_rx_cbfifo =
        contents st_rx_ready.uart_rx_cbfifo ++ [st_rx_ready.UART0.D] ∧
      cbfifo_length (UART0_IRQHandler st_rx_ready 0).uart_rx_cbfifo =
        cbfifo_length st_rx_ready.uart_rx_cbfifo + 1 ∧
      (UART0_IRQHandler st_rx_ready 0).uart_rx_cbfifo.rptr =
        st_rx_ready.uart_rx_cbfifo.rptr) ∧
    (cbfifo_full st_rx_ready.uart_rx_cbfifo = true →
      (UART0_IRQHandler st_rx_ready 0).uart_rx_cbfifo = st_rx_ready.uart_rx_cbfifo) :=
  ⟨Reachable.cb_init, by decide, by decide,
    irq_inbound_overflow_policy st_rx_ready Reachable.cb_init 0 (by decide) (by decide)⟩

/-! ## The interrupt handler, branch by branch -/

/-- The four error flags are the low four bits of the status register. -/
theorem err_mask_eq : UART0_S1_ERR_MASK = 2 ^ 4 - 1 := by decide

/-- The read-modify-write of line 132 writes 1 to each of the four error
flags. -/
theorem err_ack_bits (x : Nat) :
    ((x ||| UART0_S1_ERR_MASK) % 256) &&& UART0_S1_ERR_MASK = 15 := by
  apply Nat.eq_of_testBit_eq
  intro i
  rw [err_mask_eq, show (256 : Nat) = 2 ^ 8 from rfl, show (15 : Nat) = 2 ^ 4 - 1 from rfl]
  simp only [Nat.testBit_and, Nat.testBit_mod_two_pow, Nat.testBit_or,
    Nat.testBit_two_pow_sub_one]
  by_cases h : i < 4
  · have : i < 8 := by omega
    simp [h, this]
  · simp [h]

/-- Masking twice is masking with the conjunction of the masks. -/
theorem land_land (x a b c : Nat) (h : a &&& b = c) : x &&& a &&& b = x &&& c := by
  rw [Nat.land_assoc, h]

/-- The line-error branch in closed form: with an error flag set it clears the
four error flags and receive-data-ready and keeps the byte read. -/
theorem irq_error_eq (s : State) (character : Byte) :
    irq_error s character =
      if s.UART0.S1 &&& UART0_S1_ERR_MASK ≠ 0 then
        ({ s with UART0 := { s.UART0 with S1 := s.UART0.S1 &&& 0xD0 } }, s.UART0.D)
      else (s, character) := by
  unfold irq_error
  split
  · simp only [UART0_write_S1, UART0_read_D, err_ack_bits, UART0_S1_RDRF_MASK]
    rw [land_land _ (0xFF - 15) (0xFF - 0x20) 0xD0 (by decide)]
  · rfl

/-- The line-error branch touches nothing but the status register, and of
that it keeps the transmit-register-empty flag. -/
theorem irq_error_frame (s : State) (character : Byte) :
    (irq_error s character).1.uart_tx_cbfifo = s.uart_tx_cbfifo ∧
    (irq_error s character).1.uart_rx_cbfifo = s.uart_rx_cbfifo ∧
    (irq_error s character).1.primask = s.primask ∧
    (irq_error s character).1.UART0.C2 = s.UART0.C2 ∧
    (irq_error s character).1.UART0.sent = s.UART0.sent ∧
    (irq_error s character).1.UART0.S1 &&& UART0_S1_TDRE_MASK =
      s.UART0.S1 &&& UART0_S1_TDRE_MASK := by
  rw [irq_error_eq]
  split
  · refine ⟨rfl, rfl, rfl, rfl, rfl, ?_⟩
    exact land_land _ 0xD0 UART0_S1_TDRE_MASK _ (by decide)
  · exact ⟨rfl, rfl, rfl, rfl, rfl, rfl⟩

/-- The receive branch touches neither the outbound buffer, nor the control
register, nor the transmit side, and keeps the transmit-register-empty
flag. -/
theorem irq_receive_frame (s : State) (character : Byte) :
    (irq_receive s character).1.uart_tx_cbfifo = s.uart_tx_cbfifo ∧
    (irq_receive s character).1.UART0.C2 = s.UART0.C2 ∧
    (irq_receive s character).1.UART0.sent = s.UART0.sent ∧
    (irq_receive s character).1.UART0.S1 &&& UART0_S1_TDRE_MASK =
      s.UART0.S1 &&& UART0_S1_TDRE_MASK := by
  unfold irq_receive
  split
  · have hb : s.UART0.S1 &&& (0xFF - UART0_S1_RDRF_MASK) &&& UART0_S1_TDRE_MASK =
        s.UART0.S1 &&& UART0_S1_TDRE_MASK := land_land _ _ _ _ (by decide)
    simp only [UART0_read_D]
    split
    · exact ⟨rfl, rfl, rfl, hb⟩
    · exact ⟨rfl, rfl, rfl, hb⟩
  · exact ⟨rfl, rfl, rfl, rfl⟩

/-- The receive branch does nothing when receive-data-ready is clear. -/
theorem irq_receive_clear (s : State) (character : Byte)
    (h : s.UART0.S1 &&& UART0_S1_RDRF_MASK = 0) : irq_receive s character = (s, character) := by
  simp only [irq_receive, h, ne_eq, not_true_eq_false, if_false]

/-- The transmit branch does not touch the status register. -/
theorem irq_transmit_S1 (s : State) (character : Byte) :
    (irq_transmit s character).1.UART0.S1 = s.UART0.S1 := by
  unfold irq_transmit
  split
  · split <;> rfl
  · rfl

/-- The handler is its transmit branch run on a state that has the outbound
buffer, the control register, the bytes sent and the transmit-register-empty
flag of the state on entry. -/
theorem handler_pre (s : State) (character : Byte) :
    ∃ (s2 : State) (c2 : Byte),
      UART0_IRQHandler s character = (irq_transmit s2 c2).1 ∧
      s2.uart_tx_cbfifo = s.uart_tx_cbfifo ∧ s2.UART0.C2 = s.UART0.C2 ∧
      s2.UART0.sent = s.UART0.sent ∧
      s2.UART0.S1 &&& UART0_S1_TDRE_MASK = s.UART0.S1 &&& UART0_S1_TDRE_MASK := by
  obtain ⟨e1, _, _, e2, e3, e4⟩ := irq_error_frame s character
  obtain ⟨r1, r2, r3, r4⟩ :=
    irq_receive_frame (irq_error s character).1 (irq_error s character).2
  exact ⟨(irq_receive (irq_error s character).1 (irq_error s character).2).1,
    (irq_receive (irq_error s character).1 (irq_error s character).2).2, rfl,
    r1.trans e1, r2.trans e2, r3.trans e3, r4.trans e4⟩

/-- With the transmit interrupt disabled the handler leaves the outbound
buffer, the control register and the transmit side alone. -/
theorem handler_idle (s : State) (character : Byte)
    (hT : s.UART0.C2 &&& UART0_C2_TIE_MASK = 0) :
    (UART0_IRQHandler s character).uart_tx_cbfifo = s.uart_tx_cbfifo ∧
    (UART0_IRQHandler s character).UART0.C2 = s.UART0.C2 ∧
    (UART0_IRQHandler s character).UART0.sent = s.UART0.sent := by
  obtain ⟨s2, c2, e, h1, h2, h3, _⟩ := handler_pre s character
  have hT2 : s2.UART0.C2 &&& UART0_C2_TIE_MASK = 0 := by rw [h2]; exact hT
  have : irq_transmit s2 c2 = (s2, c2) := by
    simp only [irq_transmit, hT2, ne_eq, not_true_eq_false, false_and, if_false]
  rw [e, this]
  exact ⟨h1, h2, h3⟩

/-- With the transmit interrupt enabled, the transmit register empty and the
outbound buffer empty, the handler only clears the enable bit. -/
theorem handler_stop (s : State) (character : Byte)
    (hT : s.UART0.C2 &&& UART0_C2_TIE_MASK ≠ 0) (hD : s.UART0.S1 &&& UART0_S1_TDRE_MASK ≠ 0)
    (he : cbfifo_empty s.uart_tx_cbfifo = true) :
    (UART0_IRQHandler s character).uart_tx_cbfifo = s.uart_tx_cbfifo ∧
    (UART0_IRQHandler s character).UART0.C2 =
      (s.UART0.C2 &&& (2 ^ 32 - 1 - UART0_C2_TIE_MASK)) % 256 ∧
    (UART0_IRQHandler s character).UART0.sent = s.UART0.sent := by
  obtain ⟨s2, c2, e, h1, h2, h3, h4⟩ := handler_pre s character
  have hT2 : s2.UART0.C2 &&& UART0_C2_TIE_MASK ≠ 0 := by rw [h2]; exact hT
  have hD2 : s2.UART0.S1 &&& UART0_S1_TDRE_MASK ≠ 0 := by rw [h4]; exact hD
  have he2 : cbfifo_empty s2.uart_tx_cbfifo = true := by rw [h1]; exact he
  rw [e]
  simp only [irq_transmit, hT2, hD2, ne_eq, not_false_eq_true, and_self, if_true, he2,
    Bool.not_true, Bool.false_eq_true, if_false]
  exact ⟨h1, by rw [h2], h3⟩

/-- The transmit branch on a non-empty outbound buffer, with the transmit
interrupt enabled and the transmit register empty: the oldest byte goes to
the data register. -/
theorem irq_transmit_drain (s : State) (character : Byte) (hi : Inv s.uart_tx_cbfifo)
    (hT : s.UART0.C2 &&& UART0_C2_TIE_MASK ≠ 0) (hD : s.UART0.S1 &&& UART0_S1_TDRE_MASK ≠ 0)
    (he : cbfifo_empty s.uart_tx_cbfifo = false) :
    ∃ (cb1 : cbfifo_t) (b : Byte) (rest : List Byte),
      contents s.uart_tx_cbfifo = b :: rest ∧ contents cb1 = rest ∧ Inv cb1 ∧
      cb1.length + 1 = s.uart_tx_cbfifo.length ∧
      irq_transmit s character =
        ({ s with uart_tx_cbfifo := cb1, UART0 := UART0_write_D s.UART0 b }, b) := by
  have h0 : s.uart_tx_cbfifo.length ≠ 0 := by simpa [cbfifo_empty] using he
  obtain ⟨cb1, dst1, ed, hi1, _, hl, _, hc, hb, _⟩ :=
    cbfifo_dequeue_spec hi (fun _ => character) 1 s.primask
  have hk : min 1 s.uart_tx_cbfifo.length = 1 := by omega
  rw [hk] at ed hl hc hb
  have hlen := length_contents s.uart_tx_cbfifo
  cases hq : contents s.uart_tx_cbfifo with
  | nil => rw [hq] at hlen; exact absurd hlen.symm h0
  | cons b rest =>
    rw [hq] at hc hb
    have hx : dst1 0 = b := by
      have : bytes dst1 1 = [dst1 0] := rfl
      rw [this] at hb
      simpa using hb
    refine ⟨cb1, b, rest, rfl, hc, hi1, by omega, ?_⟩
    simp only [irq_transmit, hT, hD, ne_eq, not_false_eq_true, and_self, if_true, he,
      Bool.not_false, ed, Option.getD_some, hx]

/-- With the transmit interrupt enabled, the transmit register empty and the
outbound buffer non-empty, the handler moves the oldest byte to the data
register and changes neither the control register nor the
transmit-register-empty flag. -/
theorem handler_drain (s : State) (character : Byte) (hi : Inv s.uart_tx_cbfifo)
    (hT : s.UART0.C2 &&& UART0_C2_TIE_MASK ≠ 0) (hD : s.UART0.S1 &&& UART0_S1_TDRE_MASK ≠ 0)
    (he : cbfifo_empty s.uart_tx_cbfifo = false) :
    ∃ (b : Byte) (rest : List Byte),
      contents s.uart_tx_cbfifo = b :: rest ∧
      contents (UART0_IRQHandler s character).uart_tx_cbfifo = rest ∧
      Inv (UART0_IRQHandler s character).uart_tx_cbfifo ∧
      (UART0_IRQHandler s character).uart_tx_cbfifo.length + 1 = s.uart_tx_cbfifo.length ∧
      (UART0_IRQHandler s character).UART0.sent = s.UART0.sent ++ [b] ∧
      (UART0_IRQHandler s character).UART0.C2 = s.UART0.C2 ∧
      (UART0_IRQHandler s character).UART0.S1 &&& UART0_S1_TDRE_MASK =
        s.UART0.S1 &&& UART0_S1_TDRE_MASK := by
  obtain ⟨s2, c2, e, h1, h2, h3, h4⟩ := handler_pre s character
  obtain ⟨cb1, b, rest, hq, hc, hi1, hl, et⟩ :=
    irq_transmit_drain s2 c2 (h1 ▸ hi) (by rw [h2]; exact hT) (by rw [h4]; exact hD)
      (by rw [h1]; exact he)
  rw [h1] at hq hl
  rw [e, et]
  exact ⟨b, rest, hq, hc, hi1, hl, by simp only [UART0_write_D, h3], h2, h4⟩

/-- The transmit-interrupt enable bit is bit 7 of the control register. -/
theorem tie_mask_eq : UART0_C2_TIE_MASK = 2 ^ 7 := by decide

/-- A register value has the enable bit set exactly when its bit 7 is 1. -/
theorem tie_set_iff (x : Nat) : x &&& UART0_C2_TIE_MASK ≠ 0 ↔ x.testBit 7 = true := by
  rw [tie_mask_eq, Nat.and_two_pow]
  cases x.testBit 7 <;> simp

/-- Line 157 clears bit 7 of the 8-bit control register and keeps its other
bits. -/
theorem tie_clear_bits (x : Nat) :
    ((x &&& (2 ^ 32 - 1 - UART0_C2_TIE_MASK)) % 256) &&& UART0_C2_TIE_MASK = 0 ∧
    ∀ i, i < 8 → i ≠ 7 →
      ((x &&& (2 ^ 32 - 1 - UART0_C2_TIE_MASK)) % 256).testBit i = x.testBit i := by
  have hk : (2 ^ 32 - 1 - UART0_C2_TIE_MASK) = 4294967167 := by decide
  rw [hk, show (256 : Nat) = 2 ^ 8 from rfl]
  constructor
  · have h7 : ((x &&& 4294967167) % 2 ^ 8).testBit 7 = false := by
      rw [Nat.testBit_mod_two_pow, Nat.testBit_and]
      have : Nat.testBit 4294967167 7 = false := by decide
      simp [this]
    by_contra hne
    have := (tie_set_iff ((x &&& 4294967167) % 2 ^ 8)).1 hne
    rw [h7] at this
    exact Bool.false_ne_true this
  · intro i hi h7
    rw [Nat.testBit_mod_two_pow, Nat.testBit_and]
    have : Nat.testBit 4294967167 i = true := by
      interval_cases i <;> first | decide | exact absurd rfl h7
    simp [this, hi]

/-- Line 54 sets bit 7 of the 8-bit control register and keeps its other
bits. -/
theorem tie_set_bits (x : Nat) :
    ((x ||| UART0_C2_TIE_MASK) % 256) &&& UART0_C2_TIE_MASK ≠ 0 ∧
    ∀ i, i < 8 → i ≠ 7 → ((x ||| UART0_C2_TIE_MASK) % 256).testBit i = x.testBit i := by
  constructor
  · rw [tie_set_iff, tie_mask_eq, show (256 : Nat) = 2 ^ 8 from rfl,
      Nat.testBit_mod_two_pow, Nat.testBit_or, Nat.testBit_two_pow_self]
    simp
  · intro i hi h7
    rw [tie_mask_eq, show (256 : Nat) = 2 ^ 8 from rfl, Nat.testBit_mod_two_pow,
      Nat.testBit_or, Nat.testBit_two_pow]
    have : ¬ (7 = i) := fun h => h7 h.symm
    simp [hi, this]

/-- Whatever `__sys_write` returns, it has changed the control register at
most by setting the enable bit when that bit was clear. -/
theorem sys_write_C2 (s : State) (handle : Int) (buf : Option Mem) (size : Int) (s1 : State)
    (r : Int) (e : __sys_write s handle buf size = some (s1, r)) :
    s1.UART0.C2 = s.UART0.C2 ∨
      (s.UART0.C2 &&& UART0_C2_TIE_MASK = 0 ∧
        s1.UART0.C2 = (s.UART0.C2 ||| UART0_C2_TIE_MASK) % 256) := by
  cases buf with
  | none =>
    simp only [__sys_write, Option.some.injEq, Prod.mk.injEq] at e
    exact Or.inl (by rw [← e.1])
  | some b =>
    simp only [__sys_write] at e
    split at e
    · exact absurd e (by simp)
    · split at e
      · simp only [Option.some.injEq, Prod.mk.injEq] at e
        exact Or.inl (by rw [← e.1])
      · split at e
        · rename_i hT
          simp only [Option.some.injEq, Prod.mk.injEq] at e
          exact Or.inr ⟨hT, by rw [← e.1]⟩
        · simp only [Option.some.injEq, Prod.mk.injEq] at e
          exact Or.inl (by rw [← e.1])

/-- Once the busy-wait is over, `__sys_write` with a non-null `buf` on a
reachable outbound buffer returns 0, leaves a reachable outbound buffer, has
the enable bit set and touches neither the status register nor the bytes
sent. -/
theorem sys_write_after_wait_regs (s : State) (hr : Reachable s.uart_tx_cbfifo) (handle : Int)
    (buf : Mem) (size : Int) (hw : tx_wait s size = false) :
    ∃ s1 : State,
      __sys_write s handle (some buf) size = some (s1, 0) ∧
      Reachable s1.uart_tx_cbfifo ∧
      s1.UART0.S1 = s.UART0.S1 ∧ s1.UART0.sent = s.UART0.sent ∧
      s1.UART0.C2 =
        (if s.UART0.C2 &&& UART0_C2_TIE_MASK = 0 then
          (s.UART0.C2 ||| UART0_C2_TIE_MASK) % 256
        else s.UART0.C2) := by
  have hi := hr.inv
  have hl := hi.length_le
  have hn : to_size_t size ≤ 256 - s.uart_tx_cbfifo.length := by
    simp only [tx_wait, decide_eq_false_iff_not, CAPACITY, cbfifo_length] at hw
    omega
  obtain ⟨cb1, e, _, _, _, _⟩ := cbfifo_enqueue_spec hi buf (to_size_t size) s.primask
  obtain ⟨cb2, e2, hr2⟩ := hr.enqueue_cb (some buf) (to_size_t size) s.primask
  have hk : min (to_size_t size) (256 - s.uart_tx_cbfifo.length) = to_size_t size := by omega
  rw [hk] at e
  have hcb : cb2 = cb1 := by
    rw [e] at e2
    exact (Option.some.inj e2).symm
  simp only [__sys_write, hw, Bool.false_eq_true, if_false, e, Option.getD_some, ne_eq,
    not_true_eq_false]
  by_cases ht : s.UART0.C2 &&& UART0_C2_TIE_MASK = 0
  · rw [if_pos ht, if_pos ht]
    exact ⟨_, rfl, hcb ▸ hr2, rfl, rfl, rfl⟩
  · rw [if_neg ht, if_neg ht]
    exact ⟨_, rfl, hcb ▸ hr2, rfl, rfl, rfl⟩

/-- The state after the write of "ok" is what `__sys_write` returns with 0. -/
theorem sys_write_st_ok :
    __sys_write st_idle 1 (some (region [111, 107])) 2 = some (st_ok, 0) := by
  obtain ⟨s1, e, _⟩ :=
    sys_write_after_wait_regs st_idle Reachable.cb_init 1 (region [111, 107]) 2 (by decide)
  have : st_ok = s1 := by
    unfold st_ok
    rw [e]
    rfl
  rw [this]
  exact e

/-- The outbound buffer after the write of "ok" is reachable. -/
theorem Reachable.st_ok : Reachable st_ok.uart_tx_cbfifo := by
  obtain ⟨s1, e, hr, _⟩ :=
    sys_write_after_wait_regs st_idle Reachable.cb_init 1 (region [111, 107]) 2 (by decide)
  have : PES.st_ok = s1 := by
    have := sys_write_st_ok
    rw [e] at this
    simp only [Option.some.injEq, Prod.mk.injEq, and_true] at this
    exact this.symm
  exact this ▸ hr

/-! ## The serial transport: claims C11 to C16 -/

/-- C11: when `UART0_IRQHandler` is entered with an overrun, noise, framing or
parity flag set, it acknowledges the four error flags, leaves
receive-data-ready clear, and discards the byte: the inbound buffer (storage,
indices, count and full flag) is after the handler what it was before. -/
theorem irq_line_error_discard (s : State) (character : Byte)
    (herr : s.UART0.S1 &&& UART0_S1_ERR_MASK ≠ 0) :
    (UART0_IRQHandler s character).uart_rx_cbfifo = s.uart_rx_cbfifo ∧
    (UART0_IRQHandler s character).UART0.S1 &&& UART0_S1_ERR_MASK = 0 ∧
    (UART0_IRQHandler s character).UART0.S1 &&& UART0_S1_RDRF_MASK = 0 := by
  have e1 : irq_error s character =
      ({ s with UART0 := { s.UART0 with S1 := s.UART0.S1 &&& 0xD0 } }, s.UART0.D) := by
    rw [irq_error_eq, if_pos herr]
  have hclr : s.UART0.S1 &&& 0xD0 &&& UART0_S1_RDRF_MASK = 0 := by
    rw [land_land _ 0xD0 UART0_S1_RDRF_MASK 0 (by decide)]
    exact Nat.and_zero _
  have e2 : irq_receive { s with UART0 := { s.UART0 with S1 := s.UART0.S1 &&& 0xD0 } }
      s.UART0.D =
      ({ s with UART0 := { s.UART0 with S1 := s.UART0.S1 &&& 0xD0 } }, s.UART0.D) :=
    irq_receive_clear _ _ hclr
  have eH : UART0_IRQHandler s character =
      (irq_transmit { s with UART0 := { s.UART0 with S1 := s.UART0.S1 &&& 0xD0 } }
        s.UART0.D).1 := by
    simp only [UART0_IRQHandler, e1, e2]
  rw [eH, irq_transmit_rx, irq_transmit_S1]
  refine ⟨rfl, ?_, hclr⟩
  show s.UART0.S1 &&& 0xD0 &&& UART0_S1_ERR_MASK = 0
  rw [land_land _ 0xD0 UART0_S1_ERR_MASK 0 (by decide)]
  exact Nat.and_zero _

/-- C11 at a concrete input: a byte arrives with the framing-error flag set
while the inbound buffer holds one byte. -/
theorem irq_line_error_discard_witness :
    st_rx_error.UART0.S1 &&& UART0_S1_ERR_MASK ≠ 0 ∧
    (UART0_IRQHandler st_rx_error 0).uart_rx_cbfifo = st_rx_error.uart_rx_cbfifo ∧
    (UART0_IRQHandler st_rx_error 0).UART0.S1 &&& UART0_S1_ERR_MASK = 0 ∧
    (UART0_IRQHandler st_rx_error 0).UART0.S1 &&& UART0_S1_RDRF_MASK = 0 :=
  ⟨by decide, irq_line_error_discard st_rx_error 0 (by decide)⟩

/-- C12: when `UART0_IRQHandler` runs with the transmit interrupt enabled and
transmit-register-empty set on a reachable, non-empty outbound buffer, it
removes exactly one byte, the oldest one, writes that byte to the data
register, and leaves the transmit interrupt enabled. -/
theorem irq_outbound_drain (s : State) (hr : Reachable s.uart_tx_cbfifo) (character : Byte)
    (hne : cbfifo_empty s.uart_tx_cbfifo = false)
    (hT : s.UART0.C2 &&& UART0_C2_TIE_MASK ≠ 0)
    (hD : s.UART0.S1 &&& UART0_S1_TDRE_MASK ≠ 0) :
    ∃ (b : Byte) (rest : List Byte),
      contents s.uart_tx_cbfifo = b :: rest ∧
      contents (UART0_IRQHandler s character).uart_tx_cbfifo = rest ∧
      cbfifo_length (UART0_IRQHandler s character).uart_tx_cbfifo + 1 =
        cbfifo_length s.uart_tx_cbfifo ∧
      (UART0_IRQHandler s character).UART0.sent = s.UART0.sent ++ [b] ∧
      (UART0_IRQHandler s character).UART0.C2 &&& UART0_C2_TIE_MASK ≠ 0 := by
  obtain ⟨b, rest, hq, hc, _, hl, hs, hC, _⟩ := handler_drain s character hr.inv hT hD hne
  exact ⟨b, rest, hq, hc, hl, hs, by rw [hC]; exact hT⟩

set_option maxRecDepth 100000 in
/-- C12 at a concrete input: the first firing after the write of "ok" sends
the byte 111. -/
theorem irq_outbound_drain_witness :
    Reachable st_ok.uart_tx_cbfifo ∧ cbfifo_empty st_ok.uart_tx_cbfifo = false ∧
    st_ok.UART0.C2 &&& UART0_C2_TIE_MASK ≠ 0 ∧
    st_ok.UART0.S1 &&& UART0_S1_TDRE_MASK ≠ 0 ∧
    (∃ (b : Byte) (rest : List Byte),
      contents st_ok.uart_tx_cbfifo = b :: rest ∧
      contents (UART0_IRQHandler st_ok 0).uart_tx_cbfifo = rest ∧
      cbfifo_length (UART0_IRQHandler st_ok 0).uart_tx_cbfifo + 1 =
        cbfifo_length st_ok.uart_tx_cbfifo ∧
      (UART0_IRQHandler st_ok 0).UART0.sent = st_ok.UART0.sent ++ [b] ∧
      (UART0_IRQHandler st_ok 0).UART0.C2 &&& UART0_C2_TIE_MASK ≠ 0) ∧
    (UART0_IRQHandler st_ok 0).UART0.sent = [111] :=
  ⟨Reachable.st_ok, by decide, by decide, by decide,
    irq_outbound_drain st_ok Reachable.st_ok 0 (by decide) (by decide) (by decide),
    by decide⟩

/-- C13: when `UART0_IRQHandler` runs with the transmit interrupt enabled,
transmit-register-empty set and the outbound buffer empty, it clears the
transmit-interrupt enable bit, keeps the other bits of the 8-bit control
register, writes nothing to the data register and leaves the outbound buffer
as it was. -/
theorem irq_draining_to_idle (s : State) (character : Byte)
    (hT : s.UART0.C2 &&& UART0_C2_TIE_MASK ≠ 0)
    (hD : s.UART0.S1 &&& UART0_S1_TDRE_MASK ≠ 0)
    (he : cbfifo_empty s.uart_tx_cbfifo = true) :
    (UART0_IRQHandler s character).UART0.C2 &&& UART0_C2_TIE_MASK = 0 ∧
    (∀ i, i < 8 → i ≠ 7 →
      (UART0_IRQHandler s character).UART0.C2.testBit i = s.UART0.C2.testBit i) ∧
    (UART0_IRQHandler s character).UART0.sent = s.UART0.sent ∧
    (UART0_IRQHandler s character).uart_tx_cbfifo = s.uart_tx_cbfifo := by
  obtain ⟨htx, hC, hs⟩ := handler_stop s character hT hD he
  obtain ⟨b1, b2⟩ := tie_clear_bits s.UART0.C2
  rw [hC]
  exact ⟨b1, b2, hs, htx⟩

set_option maxRecDepth 100000 in
/-- C13 at a concrete input: the third firing after the write of "ok" finds
the outbound buffer empty. -/
theorem irq_draining_to_idle_witness :
    st_drained.UART0.C2 &&& UART0_C2_TIE_MASK ≠ 0 ∧
    st_drained.UART0.S1 &&& UART0_S1_TDRE_MASK ≠ 0 ∧
    cbfifo_empty st_drained.uart_tx_cbfifo = true ∧
    (UART0_IRQHandler st_drained 0).UART0.C2 &&& UART0_C2_TIE_MASK = 0 ∧
    (∀ i, i < 8 → i ≠ 7 →
      (UART0_IRQHandler st_drained 0).UART0.C2.testBit i = st_drained.UART0.C2.testBit i) ∧
    (UART0_IRQHandler st_drained 0).UART0.sent = st_drained.UART0.sent ∧
    (UART0_IRQHandler st_drained 0).uart_tx_cbfifo = st_drained.uart_tx_cbfifo :=
  ⟨by decide, by decide, by decide,
    irq_draining_to_idle st_drained 0 (by decide) (by decide) (by decide)⟩

/-- C14: every call of `__sys_write` with a non-null `buf` that gets past the
busy-wait on a reachable outbound buffer returns with the transmit-interrupt
enable bit set, whether it was clear or set before, and with the other bits
of the 8-bit control register as they were. -/
theorem sys_write_idle_to_draining (s : State) (hr : Reachable s.uart_tx_cbfifo)
    (handle : Int) (buf : Mem) (size : Int) (hw : tx_wait s size = false) :
    ∃ (s1 : State) (r : Int),
      __sys_write s handle (some buf) size = some (s1, r) ∧
      s1.UART0.C2 &&& UART0_C2_TIE_MASK ≠ 0 ∧
      ∀ i, i < 8 → i ≠ 7 → s1.UART0.C2.testBit i = s.UART0.C2.testBit i := by
  obtain ⟨s1, e, _, _, _, hC⟩ := sys_write_after_wait_regs s hr handle buf size hw
  refine ⟨s1, 0, e, ?_, ?_⟩
  · rw [hC]
    split
    · exact (tie_set_bits s.UART0.C2).1
    · assumption
  · intro i hi h7
    rw [hC]
    split
    · exact (tie_set_bits s.UART0.C2).2 i hi h7
    · rfl

/-- C14 at a concrete input: the write of "ok" on the idle transport, whose
enable bit is clear. -/
theorem sys_write_idle_to_draining_witness :
    Reachable st_idle.uart_tx_cbfifo ∧ tx_wait st_idle 2 = false ∧
    st_idle.UART0.C2 &&& UART0_C2_TIE_MASK = 0 ∧
    ∃ (s1 : State) (r : Int),
      __sys_write st_idle 1 (some (region [111, 107])) 2 = some (s1, r) ∧
      s1.UART0.C2 &&& UART0_C2_TIE_MASK ≠ 0 ∧
      ∀ i, i < 8 → i ≠ 7 → s1.UART0.C2.testBit i = st_idle.UART0.C2.testBit i :=
  ⟨Reachable.cb_init, by decide, by decide,
    sys_write_idle_to_draining st_idle Reachable.cb_init 1 (region [111, 107]) 2 (by decide)⟩

/-- C15: when `UART0_IRQHandler` is entered with the transmit-interrupt enable
bit clear, the bit is clear on return and the outbound buffer is unchanged;
`__sys_write` never clears the bit and `__sys_readc` does not touch the
peripheral, so only `__sys_write` sets the bit and only the handler clears
it. -/
theorem irq_never_arms_transmitter (s : State) (character : Byte)
    (hT : s.UART0.C2 &&& UART0_C2_TIE_MASK = 0) :
    (UART0_IRQHandler s character).UART0.C2 &&& UART0_C2_TIE_MASK = 0 ∧
    (UART0_IRQHandler s character).uart_tx_cbfifo = s.uart_tx_cbfifo ∧
    (∀ (t : State) (handle : Int) (buf : Option Mem) (size : Int) (t1 : State) (r : Int),
      __sys_write t handle buf size = some (t1, r) →
      t.UART0.C2 &&& UART0_C2_TIE_MASK ≠ 0 → t1.UART0.C2 &&& UART0_C2_TIE_MASK ≠ 0) ∧
    (∀ (t : State) (c : Byte), (__sys_readc t c).1.UART0 = t.UART0) := by
  obtain ⟨htx, hC, _⟩ := handler_idle s character hT
  refine ⟨by rw [hC]; exact hT, htx, ?_, ?_⟩
  · intro t handle buf size t1 r e ht
    rcases sys_write_C2 t handle buf size t1 r e with h | ⟨h, _⟩
    · rw [h]; exact ht
    · exact absurd h ht
  · intro t c
    unfold __sys_readc
    split <;> rfl

/-- C15 at a concrete input: the handler runs on the idle transport with a
received byte pending. -/
theorem irq_never_arms_transmitter_witness :
    st_rx_ready.UART0.C2 &&& UART0_C2_TIE_MASK = 0 ∧
    (UART0_IRQHandler st_rx_ready 0).UART0.C2 &&& UART0_C2_TIE_MASK = 0 ∧
    (UART0_IRQHandler st_rx_ready 0).uart_tx_cbfifo = st_rx_ready.uart_tx_cbfifo ∧
    (∀ (t : State) (handle : Int) (buf : Option Mem) (size : Int) (t1 : State) (r : Int),
      __sys_write t handle buf size = some (t1, r) →
      t.UART0.C2 &&& UART0_C2_TIE_MASK ≠ 0 → t1.UART0.C2 &&& UART0_C2_TIE_MASK ≠ 0) ∧
    (∀ (t : State) (c : Byte), (__sys_readc t c).1.UART0 = t.UART0) :=
  ⟨by decide, irq_never_arms_transmitter st_rx_ready 0 (by decide)⟩

/-- The claim C16 as stated fails on the idle transport: after the write of
"ok" and two firings the bytes 111 and 107 have been sent, but the
transmit-interrupt enable bit is still set. -/
theorem outbound_scenario_counterexample :
    ¬ ∃ s1 : State,
      __sys_write st_idle 1 (some (region [111, 107])) 2 = some (s1, 0) ∧
      cbfifo_length s1.uart_tx_cbfifo = 2 ∧
      (UART0_IRQHandler s1 0).UART0.sent = [111] ∧
      (UART0_IRQHandler (UART0_IRQHandler s1 0) 0).UART0.sent = [111, 107] ∧
      (UART0_IRQHandler (UART0_IRQHandler s1 0) 0).UART0.C2 &&& UART0_C2_TIE_MASK = 0 := by
  rintro ⟨s1, e, _, _, _, h⟩
  rw [sys_write_st_ok] at e
  simp only [Option.some.injEq, Prod.mk.injEq, and_true] at e
  rw [← e] at h
  have h2 : st_drained.UART0.C2 &&& UART0_C2_TIE_MASK ≠ 0 := by decide
  exact h2 h

/-- C16, amended: from an empty, freshly initialised outbound buffer with the
transmit interrupt disabled, `__sys_write` of the two bytes "o", "k" returns
0, leaves the count at 2 and enables the transmit interrupt; two firings of
the handler with transmit-register-empty set write "o" and then "k" to the
data register and leave the buffer empty with the transmit interrupt still
enabled; a third firing writes nothing and disables the transmit
interrupt. -/
theorem outbound_scenario (s : State) (hs : s.uart_tx_cbfifo = cb_init)
    (hT : s.UART0.C2 &&& UART0_C2_TIE_MASK = 0)
    (hD : s.UART0.S1 &&& UART0_S1_TDRE_MASK ≠ 0) (handle : Int) (buf : Mem)
    (ho : buf 0 = 111) (hk : buf 1 = 107) (c1 c2 c3 : Byte) :
    ∃ s1 : State,
      __sys_write s handle (some buf) 2 = some (s1, 0) ∧
      cbfifo_length s1.uart_tx_cbfifo = 2 ∧
      s1.UART0.C2 &&& UART0_C2_TIE_MASK ≠ 0 ∧
      (UART0_IRQHandler s1 c1).UART0.sent = s.UART0.sent ++ [111] ∧
      (UART0_IRQHandler (UART0_IRQHandler s1 c1) c2).UART0.sent =
        s.UART0.sent ++ [111, 107] ∧
      cbfifo_empty (UART0_IRQHandler (UART0_IRQHandler s1 c1) c2).uart_tx_cbfifo = true ∧
      (UART0_IRQHandler (UART0_IRQHandler s1 c1) c2).UART0.C2 &&& UART0_C2_TIE_MASK ≠ 0 ∧
      (UART0_IRQHandler (UART0_IRQHandler (UART0_IRQHandler s1 c1) c2) c3).UART0.sent =
        s.UART0.sent ++ [111, 107] ∧
      (UART0_IRQHandler (UART0_IRQHandler (UART0_IRQHandler s1 c1) c2) c3).UART0.C2 &&&
        UART0_C2_TIE_MASK = 0 := by
  have hr : Reachable s.uart_tx_cbfifo := hs ▸ Reachable.cb_init
  have hw : tx_wait s 2 = false := by
    unfold tx_wait
    rw [hs]
    decide
  obtain ⟨s1, e, hc, hl⟩ := sys_write_after_wait s hr handle buf 2 hw
  obtain ⟨s1', e', hr1, hS1, hsent1, hC1⟩ := sys_write_after_wait_regs s hr handle buf 2 hw
  have hs1 : s1' = s1 := by
    rw [e] at e'
    simp only [Option.some.injEq, Prod.mk.injEq, and_true] at e'
    exact e'.symm
  rw [hs1] at hr1 hS1 hsent1 hC1
  rw [if_pos hT] at hC1
  have hc1 : contents s1.uart_tx_cbfifo = [111, 107] := by
    rw [hc, hs]
    show [] ++ [buf 0, buf 1] = _
    rw [ho, hk]
    rfl
  have hl1 : s1.uart_tx_cbfifo.length = 2 := by
    rw [hl, hs]
    rfl
  have hT1 : s1.UART0.C2 &&& UART0_C2_TIE_MASK ≠ 0 := by
    rw [hC1]
    exact (tie_set_bits s.UART0.C2).1
  have hD1 : s1.UART0.S1 &&& UART0_S1_TDRE_MASK ≠ 0 := by rw [hS1]; exact hD
  obtain ⟨b1, r1, hq1, hcA, hiA, hlA, hsA, hCA, hDA⟩ :=
    handler_drain s1 c1 hr1.inv hT1 hD1 (by simp [cbfifo_empty, hl1])
  rw [hc1] at hq1
  obtain ⟨hb1, hr1'⟩ := List.cons.inj hq1
  subst hb1 hr1'
  obtain ⟨b2, r2, hq2, hcB, hiB, hlB, hsB, hCB, hDB⟩ :=
    handler_drain (UART0_IRQHandler s1 c1) c2 hiA (by rw [hCA]; exact hT1)
      (by rw [hDA]; exact hD1) (by simp only [cbfifo_empty, decide_eq_false_iff_not]; omega)
  rw [hcA] at hq2
  obtain ⟨hb2, hr2'⟩ := List.cons.inj hq2
  subst hb2 hr2'
  have hTB : (UART0_IRQHandler (UART0_IRQHandler s1 c1) c2).UART0.C2 &&&
      UART0_C2_TIE_MASK ≠ 0 := by rw [hCB, hCA]; exact hT1
  have heB : cbfifo_empty (UART0_IRQHandler (UART0_IRQHandler s1 c1) c2).uart_tx_cbfifo =
      true := by
    simp only [cbfifo_empty, decide_eq_true_eq]; omega
  obtain ⟨_, hCC, hsC⟩ :=
    handler_stop (UART0_IRQHandler (UART0_IRQHandler s1 c1) c2) c3 hTB
      (by rw [hDB, hDA]; exact hD1) heB
  refine ⟨s1, e, hl1, hT1, ?_, ?_, heB, hTB, ?_, ?_⟩
  · rw [hsA, hsent1]
  · rw [hsB, hsA, hsent1, List.append_assoc]; rfl
  · rw [hsC, hsB, hsA, hsent1, List.append_assoc]; rfl
  · rw [hCC]
    exact (tie_clear_bits _).1

/-- C16, amended, at a concrete input: the idle transport. -/
theorem outbound_scenario_witness :
    st_idle.uart_tx_cbfifo = cb_init ∧ st_idle.UART0.C2 &&& UART0_C2_TIE_MASK = 0 ∧
    st_idle.UART0.S1 &&& UART0_S1_TDRE_MASK ≠ 0 ∧
    region [111, 107] 0 = 111 ∧ region [111, 107] 1 = 107 ∧
    ∃ s1 : State,
      __sys_write st_idle 1 (some (region [111, 107])) 2 = some (s1, 0) ∧
      cbfifo_length s1.uart_tx_cbfifo = 2 ∧
      s1.UART0.C2 &&& UART0_C2_TIE_MASK ≠ 0 ∧
      (UART0_IRQHandler s1 0).UART0.sent = st_idle.UART0.sent ++ [111] ∧
      (UART0_IRQHandler (UART0_IRQHandler s1 0) 0).UART0.sent =
        st_idle.UART0.sent ++ [111, 107] ∧
      cbfifo_empty (UART0_IRQHandler (UART0_IRQHandler s1 0) 0).uart_tx_cbfifo = true ∧
      (UART0_IRQHandler (UART0_IRQHandler s1 0) 0).UART0.C2 &&& UART0_C2_TIE_MASK ≠ 0 ∧
      (UART0_IRQHandler (UART0_IRQHandler (UART0_IRQHandler s1 0) 0) 0).UART0.sent =
        st_idle.UART0.sent ++ [111, 107] ∧
      (UART0_IRQHandler (UART0_IRQHandler (UART0_IRQHandler s1 0) 0) 0).UART0.C2 &&&
        UART0_C2_TIE_MASK = 0 :=
  ⟨rfl, by decide, by decide, rfl, rfl,
    outbound_scenario st_idle rfl (by decide) (by decide) 1 (region [111, 107]) rfl rfl 0 0 0⟩

/-! ## Initialisation, null arguments and the critical section: claims C17 to C20 -/

/-- C17: whatever the structure held before, `cbfifo_init` on a non-null
pointer leaves the empty state: the 256 storage bytes are zero, both indices
and the count are 0 and the full flag is clear, so `cbfifo_empty` is true and
`cbfifo_full` is false; on a null pointer it does nothing. -/
theorem cbfifo_init_empty_state (c0 : cbfifo_t) :
    (∃ c : cbfifo_t,
      cbfifo_init (some c0) = some c ∧
      (∀ i, i < CAPACITY → c.cbfifo i = 0) ∧
      c.wptr = 0 ∧ c.rptr = 0 ∧ c.length = 0 ∧ c.full = false ∧
      cbfifo_empty c = true ∧ cbfifo_full c = false) ∧
    cbfifo_init none = none :=
  ⟨⟨cb_init, rfl, fun _ _ => rfl, rfl, rfl, rfl, rfl, rfl, rfl⟩, rfl⟩

/-- C18: with a null buffer structure or a null data pointer, `cbfifo_enqueue`
and `cbfifo_dequeue` return 0 and leave the structure, the data region and
the interrupt mask as they were, for every buffer state and every `nbyte`. -/
theorem cbfifo_null_arguments (cb : Option cbfifo_t) (buf : Option Mem) (nbyte : Nat)
    (pm : Bool) :
    cbfifo_enqueue none buf nbyte pm = { cb := none, ret := 0, primask := pm } ∧
    cbfifo_enqueue cb none nbyte pm = { cb := cb, ret := 0, primask := pm } ∧
    cbfifo_dequeue none buf nbyte pm = { cb := none, buf := buf, ret := 0, primask := pm } ∧
    cbfifo_dequeue cb none nbyte pm = { cb := cb, buf := none, ret := 0, primask := pm } := by
  refine ⟨rfl, ?_, rfl, ?_⟩
  · cases cb <;> rfl
  · cases cb <;> rfl

/-- C19, the code at the failing inputs: with a null structure or a null data
pointer `cbfifo_enqueue` returns 0, which is not `(size_t) -1` and is also
what a valid call that enqueues nothing returns. -/
theorem cbfifo_enqueue_error_value :
    (cbfifo_enqueue none (some (region [120])) 1 false).ret = 0 ∧
    (cbfifo_enqueue (some cb_init) none 1 false).ret = 0 ∧
    (cbfifo_enqueue (some cb_init) (some (region [120])) 0 false).ret = 0 ∧
    (0 : Nat) ≠ 2 ^ 32 - 1 :=
  ⟨rfl, rfl, rfl, by decide⟩

/-- The enqueue loop returns with the interrupt mask it was entered with. -/
theorem enqueue_loop_primask (buf : Mem) (n : Nat) :
    ∀ (i : Nat) (cb : cbfifo_t) (pm : Bool) (acc : Nat),
      (enqueue_loop buf n i cb pm acc).primask = pm := by
  induction n with
  | zero => intro i cb pm acc; rfl
  | succ n ih =>
    intro i cb pm acc
    rw [enqueue_loop_succ]
    split
    · rfl
    · exact ih _ _ _ _

/-- The dequeue loop returns with the interrupt mask it was entered with. -/
theorem dequeue_loop_primask (n : Nat) :
    ∀ (i : Nat) (cb : cbfifo_t) (buf : Mem) (pm : Bool) (acc : Nat),
      (dequeue_loop n i cb buf pm acc).primask = pm := by
  induction n with
  | zero => intro i cb buf pm acc; rfl
  | succ n ih =>
    intro i cb buf pm acc
    rw [dequeue_loop_succ]
    split
    · rfl
    · exact ih _ _ _ _ _

/-- An enqueue call returns with the interrupt mask it was entered with. -/
theorem cbfifo_enqueue_primask (cb : Option cbfifo_t) (buf : Option Mem) (nbyte : Nat)
    (pm : Bool) : (cbfifo_enqueue cb buf nbyte pm).primask = pm := by
  cases cb with
  | none => rfl
  | some c =>
    cases buf with
    | none => rfl
    | some b => exact enqueue_loop_primask b nbyte 0 c pm 0

/-- A dequeue call returns with the interrupt mask it was entered with. -/
theorem cbfifo_dequeue_primask (cb : Option cbfifo_t) (buf : Option Mem) (nbyte : Nat)
    (pm : Bool) : (cbfifo_dequeue cb buf nbyte pm).primask = pm := by
  cases cb with
  | none => rfl
  | some c =>
    cases buf with
    | none => rfl
    | some b => exact dequeue_loop_primask nbyte 0 c b pm 0

/-- C20: for every interrupt mask on entry, every buffer state and every
input, `cbfifo_enqueue` and `cbfifo_dequeue` return with the interrupt mask
equal to its value on entry: the critical section masks interrupts and then
puts back the mask it read, so neither a call from `UART0_IRQHandler` nor a
call with interrupts already masked changes the masking state. -/
theorem cbfifo_critical_section_scoped (cb : Option cbfifo_t) (buf : Option Mem)
    (nbyte : Nat) (pm : Bool) (s : State) (character : Byte) :
    (cbfifo_enqueue cb buf nbyte pm).primask = pm ∧
    (cbfifo_dequeue cb buf nbyte pm).primask = pm ∧
    __disable_irq pm = true ∧
    __set_PRIMASK (__get_PRIMASK pm) = pm ∧
    (UART0_IRQHandler s character).primask = s.primask := by
  refine ⟨cbfifo_enqueue_primask cb buf nbyte pm, cbfifo_dequeue_primask cb buf nbyte pm, rfl,
    set_get_PRIMASK pm, ?_⟩
  have h1 : (irq_error s character).1.primask = s.primask := (irq_error_frame s character).2.2.1
  have h2 : ∀ (t : State) (c : Byte), (irq_receive t c).1.primask = t.primask := by
    intro t c
    unfold irq_receive
    split
    · simp only [UART0_read_D]
      split
      · exact cbfifo_enqueue_primask _ _ _ _
      · rfl
    · rfl
  have h3 : ∀ (t : State) (c : Byte), (irq_transmit t c).1.primask = t.primask := by
    intro t c
    unfold irq_transmit
    split
    · split
      · exact cbfifo_dequeue_primask _ _ _ _
      · rfl
    · rfl
  have eH : UART0_IRQHandler s character =
      (irq_transmit (irq_receive (irq_error s character).1 (irq_error s character).2).1
        (irq_receive (irq_error s character).1 (irq_error s character).2).2).1 := rfl
  rw [eH, h3, h2, h1]

/-! ## The line accumulator: claim C21 -/

/-- Delivering an ordinary character (not 255, carriage return or backspace)
while `print_acceleration` is clear stores it at `line_index`, whatever that
index is, and advances the index by one. -/
theorem accumulate_step_ordinary (cs : Bool)
    (pc : (Int → Byte) → Bool → (Int → Byte) × Bool) (t : accumulate_trace) (c : Byte)
    (hp : t.state.print_acceleration = false) (h255 : c ≠ 255) (h13 : c ≠ 13) (h8 : c ≠ 8) :
    accumulate_trace.step cs pc t c =
      { state :=
          { t.state with line := store_at t.state.line t.state.line_index c
                         line_index := t.state.line_index + 1 }
        writes := t.writes ++ [t.state.line_index] } := by
  simp only [accumulate_trace.step, accumulate_line, h255, decide_False, Bool.and_false,
    Bool.false_eq_true, if_false, hp, h13, h8]

/-- Delivering a backspace while `print_acceleration` is clear lowers
`line_index` by one, whatever it is, and writes nothing. -/
theorem accumulate_step_backspace (cs : Bool)
    (pc : (Int → Byte) → Bool → (Int → Byte) × Bool) (t : accumulate_trace)
    (hp : t.state.print_acceleration = false) :
    accumulate_trace.step cs pc t 8 =
      { state := { t.state with line_index := t.state.line_index - 1 }
        writes := t.writes } := by
  have h255 : ((8 : Byte) = 255) = False := by decide
  have h13 : ((8 : Byte) = 13) = False := by decide
  simp only [accumulate_trace.step, accumulate_line, h255, decide_False, Bool.and_false,
    Bool.false_eq_true, if_false, hp, h13, if_true]

/-- A run of `n` ordinary characters advances `line_index` by `n` and writes
the `n` cells from the starting index on. -/
theorem accumulate_foldl_ordinary (cs : Bool)
    (pc : (Int → Byte) → Bool → (Int → Byte) × Bool) (c : Byte)
    (h255 : c ≠ 255) (h13 : c ≠ 13) (h8 : c ≠ 8) (n : Nat) :
    ∀ t : accumulate_trace, t.state.print_acceleration = false →
      ((List.replicate n c).foldl (accumulate_trace.step cs pc) t).state.line_index =
          t.state.line_index + n ∧
      ((List.replicate n c).foldl (accumulate_trace.step cs pc) t).state.print_acceleration =
          false ∧
      ((List.replicate n c).foldl (accumulate_trace.step cs pc) t).writes =
          t.writes ++ (List.range n).map (fun (j : Nat) => t.state.line_index + (j : Int)) := by
  induction n with
  | zero => intro t hp; simp [hp]
  | succ n ih =>
    intro t hp
    rw [List.replicate_succ, List.foldl_cons, accumulate_step_ordinary cs pc t c hp h255 h13 h8]
    obtain ⟨h1, h2, h3⟩ := ih
      { state :=
          { t.state with line := store_at t.state.line t.state.line_index c
                         line_index := t.state.line_index + 1 }
        writes := t.writes ++ [t.state.line_index] } hp
    dsimp only at h1 h3
    refine ⟨?_, h2, ?_⟩
    · rw [h1]; push_cast; ring
    · rw [h3, List.range_succ_eq_map, List.map_cons, List.map_map, List.append_assoc]
      simp only [List.singleton_append, Nat.cast_zero, add_zero]
      refine congrArg (fun l => t.writes ++ t.state.line_index :: l) ?_
      apply List.map_congr_left
      intro j _
      simp only [Function.comp, Nat.cast_succ]
      ring

/-- C21, the code at the failing inputs. A backspace delivered on an empty
line leaves `line_index` at -1, and the next character is then written at
index -1; 257 characters `'a'` without a carriage return are written at the
indices 0 to 256, the last one past the end of the 256-byte array, and leave
`line_index` at 257. -/
theorem accumulate_line_out_of_bounds (char_is_signed : Bool)
    (process_command : (Int → Byte) → Bool → (Int → Byte) × Bool) :
    (accumulate_run char_is_signed process_command [8]).state.line_index = -1 ∧
    (accumulate_run char_is_signed process_command [8, 97]).writes = [-1] ∧
    (accumulate_run char_is_signed process_command [8, 13]).writes = [-1] ∧
    (accumulate_run char_is_signed process_command (List.replicate 257 97)).writes =
      (List.range 257).map (fun (j : Nat) => (j : Int)) ∧
    (256 : Int) ∈ (accumulate_run char_is_signed process_command (List.replicate 257 97)).writes ∧
    (accumulate_run char_is_signed process_command (List.replicate 257 97)).state.line_index =
      257 := by
  have hb : accumulate_run char_is_signed process_command [8] =
      { state := { line_init with line_index := -1 }, writes := [] } := by
    simp only [accumulate_run, List.foldl_cons, List.foldl_nil]
    rw [accumulate_step_backspace _ _ _ rfl]
    rfl
  have hba : accumulate_run char_is_signed process_command [8, 97] =
      accumulate_trace.step char_is_signed process_command
        { state := { line_init with line_index := -1 }, writes := [] } 97 := by
    rw [← hb]; rfl
  have hbr : accumulate_run char_is_signed process_command [8, 13] =
      accumulate_trace.step char_is_signed process_command
        { state := { line_init with line_index := -1 }, writes := [] } 13 := by
    rw [← hb]; rfl
  obtain ⟨h1, _, h3⟩ := accumulate_foldl_ordinary char_is_signed process_command 97
    (by decide) (by decide) (by decide) 257 { state := line_init, writes := [] } rfl
  have hw : (accumulate_run char_is_signed process_command (List.replicate 257 97)).writes =
      (List.range 257).map (fun (j : Nat) => (j : Int)) := by
    unfold accumulate_run
    rw [h3]
    simp [line_init]
  refine ⟨by rw [hb], ?_, ?_, hw, ?_, ?_⟩
  · rw [hba, accumulate_step_ordinary _ _ _ _ rfl (by decide) (by decide) (by decide)]
    rfl
  · rw [hbr]
    have h255 : ((13 : Byte) = 255) = False := by decide
    simp only [accumulate_trace.step, accumulate_line, h255, decide_False, Bool.and_false,
      Bool.false_eq_true, if_false, line_init, if_true]
    rfl
  · rw [hw]
    exact List.mem_map.2 ⟨256, List.mem_range.2 (by decide), rfl⟩
  · unfold accumulate_run
    rw [h1]
    rfl

end PES
